import Mathlib

/-!
# split_drawer: a row-splitting `draw.Drawer`

A shallow embedding of `drawer.go` (package `split_drawer`) and the properties of its
band-splitting arithmetic.

Modelling conventions.

* Go `int` is the 64-bit two's-complement integer.  Values are Lean `Int`s; every Go `+`, `-`
  and `*` is followed by `wrap`, which reduces the exact result into `[-2^63, 2^63)`.
  Go `/` truncates towards zero and is `Int.tdiv`.
* `image.Point`, `image.Rectangle`, `image.Pt`, `image.Rect`, `Point.Add`, `Point.In` and
  `Rectangle.Empty` follow the Go standard library package `image`.
* A `draw.Drawer` mutates the destination image; here it is a function from the destination
  before the call to the destination after it.
* `sync.WaitGroup` keeps its counter in the high 32 bits of a 64-bit state: `wg.Add(delta)`
  adds `uint64(delta) << 32` and reads the counter back as `int32(state >> 32)`, so the
  counter after `Add` is `wrap32 (counter + delta)`, and `Add` panics when that is negative.
  `wg.Done()` is `wg.Add(-1)`, and `wg.Wait()` returns when the counter is zero.  `fate`
  classifies what `Draw` does with the count `n` it registers; a `Draw` that does not return
  normally is `none`.
* Go `/` panics on a zero divisor.  `launches` divides with `Int.tdiv`; `launchesChecked` makes
  the panic explicit and is shown to agree with `launches`.
* The goroutines run concurrently.  The embedding lists them in launch order (band index
  order); claims about the set of invocations do not depend on that order.  The wait group
  protocol itself (`Add`, `Done`, `Wait`) is the step function `Sched.step` over all
  interleavings.
-/

namespace SplitDrawer

set_option maxRecDepth 2048

/-! ## Go `int` arithmetic -/

/-- Two's-complement reduction of an exact integer into the range of a 64-bit Go `int`. -/
def wrap (x : Int) : Int := (x + 2 ^ 63) % 2 ^ 64 - 2 ^ 63

/-- Go `a + b` on `int`. -/
def add (a b : Int) : Int := wrap (a + b)

/-- Go `a - b` on `int`. -/
def sub (a b : Int) : Int := wrap (a - b)

/-- Go `a * b` on `int`. -/
def mul (a b : Int) : Int := wrap (a * b)

/-- Go `a / b` on `int`: the quotient truncated towards zero. -/
def quo (a b : Int) : Int := Int.tdiv a b

/-- The values a 64-bit Go `int` can hold. -/
def IsInt (x : Int) : Prop := -2 ^ 63 ≤ x ∧ x < 2 ^ 63

instance (x : Int) : Decidable (IsInt x) := by unfold IsInt; infer_instance

/-! ## Package `image` -/

/-- Go `image.Point`. -/
structure Point where
  X : Int
  Y : Int
deriving DecidableEq, Repr

/-- Go `image.Rectangle`: it contains the points with `Min.X ≤ X < Max.X`, `Min.Y ≤ Y < Max.Y`. -/
structure Rectangle where
  Min : Point
  Max : Point
deriving DecidableEq, Repr

/-- Go `image.Pt`. -/
def Pt (X Y : Int) : Point := ⟨X, Y⟩

/-- Go `Point.Add`. -/
def Point.Add (p q : Point) : Point := ⟨add p.X q.X, add p.Y q.Y⟩

/-- Go `image.Rect`: the returned rectangle has its minimum and maximum coordinates swapped
if necessary so that it is well-formed. -/
def Rect (x0 y0 x1 y1 : Int) : Rectangle :=
  let xs : Int × Int := if x0 > x1 then (x1, x0) else (x0, x1)
  let ys : Int × Int := if y0 > y1 then (y1, y0) else (y0, y1)
  ⟨⟨xs.1, ys.1⟩, ⟨xs.2, ys.2⟩⟩

/-- Go `Point.In`: whether the point lies in the rectangle. -/
def Point.In (p : Point) (r : Rectangle) : Prop :=
  r.Min.X ≤ p.X ∧ p.X < r.Max.X ∧ r.Min.Y ≤ p.Y ∧ p.Y < r.Max.Y

instance (p : Point) (r : Rectangle) : Decidable (p.In r) := by
  unfold Point.In; infer_instance

/-- Go `Rectangle.Empty`: whether the rectangle contains no points. -/
def Rectangle.Empty (r : Rectangle) : Prop := r.Min.X ≥ r.Max.X ∨ r.Min.Y ≥ r.Max.Y

instance (r : Rectangle) : Decidable r.Empty := by
  unfold Rectangle.Empty; infer_instance

/-- A rectangle is well-formed when `Min.X ≤ Max.X` and `Min.Y ≤ Max.Y`. -/
def Rectangle.WellFormed (r : Rectangle) : Prop := r.Min.X ≤ r.Max.X ∧ r.Min.Y ≤ r.Max.Y

instance (r : Rectangle) : Decidable r.WellFormed := by
  unfold Rectangle.WellFormed; infer_instance

/-! ## Package `split_drawer` -/

/-- Go `draw.Drawer`: `Draw dst r src sp` is the destination image after the call. -/
structure Drawer (Img S : Type) where
  Draw : Img → Rectangle → S → Point → Img

/-- The struct `splitDrawer`; a nil `d` is `none`. -/
structure splitDrawer (Img S : Type) where
  d : Option (Drawer Img S)
  n : Int

/-- The constructor `New`. -/
def New {Img S : Type} (d : Option (Drawer Img S)) (n : Int) : splitDrawer Img S := ⟨d, n⟩

/-- The package default `D`, the zero value of `splitDrawer`. -/
def D {Img S : Type} : splitDrawer Img S := ⟨none, 0⟩

/-- The worker count resolved by lines 50-53 of `Draw`: a configured `0` is replaced by
`runtime.NumCPU()`. -/
def resolve (numCPU cfg : Int) : Int := if cfg = 0 then numCPU else cfg

/-- The worker count after lines 60-64 of `Draw`: the resolved count, lowered to `rows` when
`rows` is smaller. -/
def workers (numCPU cfg rows : Int) : Int :=
  let n := resolve numCPU cfg
  if rows < n then rows else n

/-- The arguments `(y0, y1) = (i*rows/n, (i+1)*rows/n)` of the goroutines launched by the loop
`for i := 0; i < n; i++`, in launch order. -/
def launches (rows n : Int) : List (Int × Int) :=
  (List.range n.toNat).map fun (i : Nat) =>
    (quo (mul (i : Int) rows) n, quo (mul (add (i : Int) 1) rows) n)

/-- The body of one goroutine: the rectangle and the source point it hands to `d.Draw`. -/
def bandCall (r : Rectangle) (sp : Point) (y : Int × Int) : Rectangle × Point :=
  (Rect r.Min.X (add r.Min.Y y.1) r.Max.X (add r.Min.Y y.2), sp.Add (Pt 0 y.1))

/-- Line 60 of `Draw`: `rows := r.Max.Y - r.Min.Y`. -/
def rows (r : Rectangle) : Int := sub r.Max.Y r.Min.Y

/-- Go `int32(x)`: the low 32 bits of `x` as a signed integer. -/
def wrap32 (x : Int) : Int := (x + 2 ^ 31) % 2 ^ 32 - 2 ^ 31

/-- The counter of a `sync.WaitGroup` after `wg.Add(delta)`: the state gains
`uint64(delta) << 32` and the counter is read back as `int32(state >> 32)`.  `Add` panics
when the result is negative. -/
def wgAdd (counter delta : Int) : Int := wrap32 (counter + delta)

/-- What becomes of a call of `Draw` that registers the count `n` with `wg.Add(n)` (line 67)
and then launches the goroutines of the loop `for i := 0; i < n; i++`. -/
inductive Fate where
  | returns
  | addPanics
  | donePanics
  | waitsForever
deriving DecidableEq, Repr

/-- The fate of `Draw` for the count `n`.  `wg.Add(n)` panics when the 32-bit counter is
negative.  Otherwise the loop launches `max(n, 0)` goroutines, each ending in `wg.Done()`:
with none launched, `wg.Wait()` returns on a zero counter and blocks forever on a positive
one; with `n` launched and `n` registered, `Draw` returns after all of them; with fewer
registered than launched (`n ≥ 2^32`), a `wg.Done()` drives the counter negative and
panics. -/
def fate (n : Int) : Fate :=
  if wgAdd 0 n < 0 then Fate.addPanics
  else if n ≤ 0 then (if wgAdd 0 n = 0 then Fate.returns else Fate.waitsForever)
  else if wgAdd 0 n = n then Fate.returns
  else Fate.donePanics

/-- The row ranges `(y0, y1)` that `Draw` hands to its goroutines when it returns normally,
or `none` when it does not: `wg.Add(n)` panics (before any goroutine is launched), a
`wg.Done()` panics, or `wg.Wait()` never returns. -/
def splitDrawer.bands {Img S : Type} (sd : splitDrawer Img S) (numCPU : Int) (r : Rectangle) :
    Option (List (Int × Int)) :=
  let n := workers numCPU sd.n (rows r)
  if fate n = Fate.returns then some (launches (rows r) n) else none

/-- The invocations `d.Draw(dst, rect, src, point)` made by `Draw`, as the pairs
`(rect, point)` in band order, or `none` when `Draw` does not return normally. -/
def splitDrawer.calls {Img S : Type} (sd : splitDrawer Img S) (numCPU : Int) (r : Rectangle)
    (sp : Point) : Option (List (Rectangle × Point)) :=
  (sd.bands numCPU r).map fun bs => bs.map (bandCall r sp)

/-- The bands whose goroutines the loop of `Draw` launches, whether or not `Draw` returns:
none when `wg.Add(n)` panics, because `wg.Add` precedes the loop, and otherwise those of the
loop.  (When a `wg.Done()` panics the process may die before all of them are launched; the
bands really launched are then among these.) -/
def splitDrawer.dispatched {Img S : Type} (sd : splitDrawer Img S) (numCPU : Int)
    (r : Rectangle) : List (Int × Int) :=
  let n := workers numCPU sd.n (rows r)
  if wgAdd 0 n < 0 then [] else launches (rows r) n

/-- The invocations of the compositing rule made by the goroutines that `Draw` launches,
whether or not `Draw` returns. -/
def splitDrawer.invocations {Img S : Type} (sd : splitDrawer Img S) (numCPU : Int)
    (r : Rectangle) (sp : Point) : List (Rectangle × Point) :=
  (sd.dispatched numCPU r).map (bandCall r sp)

/-- The compositing rule used by `Draw`: `sd.d`, or `draw.Src` when `sd.d` is nil. -/
def splitDrawer.rule {Img S : Type} (sd : splitDrawer Img S) (drawSrc : Drawer Img S) :
    Drawer Img S :=
  match sd.d with
  | none => drawSrc
  | some d => d

/-- The method `splitDrawer.Draw` (lines 49-75): the destination image after the call, or
`none` when it does not return normally.  `numCPU` is the value of `runtime.NumCPU()` and `drawSrc` is
`draw.Src`.  The steps are `resolve` (lines 50-53), `rule` (55-58), `rows` (60), `workers`
(62-64), the wait group of `fate` (66, 67, 71, 74), `launches` (68 and 72) and `bandCall`
(70); the invocations are applied to the destination in launch order. -/
def splitDrawer.Draw {Img S : Type} (sd : splitDrawer Img S) (numCPU : Int)
    (drawSrc : Drawer Img S) (dst : Img) (r : Rectangle) (src : S) (sp : Point) : Option Img :=
  (sd.calls numCPU r sp).map fun cs =>
    cs.foldl (fun img c => (sd.rule drawSrc).Draw img c.1 src c.2) dst

/-- The number of rows of a band. -/
def bandSize (y : Int × Int) : Int := y.2 - y.1

/-- Whether row offset `y` lies in the half-open row range `b = (y0, y1)`. -/
def inBand (y : Int) (b : Int × Int) : Bool := decide (b.1 ≤ y ∧ y < b.2)

/-- Go `Point.Sub`. -/
def Point.Sub (p q : Point) : Point := ⟨sub p.X q.X, sub p.Y q.Y⟩

/-- A point whose coordinates are Go `int` values. -/
def Point.Valid (p : Point) : Prop := IsInt p.X ∧ IsInt p.Y

instance (p : Point) : Decidable p.Valid := by unfold Point.Valid; infer_instance

/-- A rectangle whose coordinates are Go `int` values. -/
def Rectangle.Valid (r : Rectangle) : Prop := r.Min.Valid ∧ r.Max.Valid

instance (r : Rectangle) : Decidable r.Valid := by unfold Rectangle.Valid; infer_instance

/-- The exact height `Max.Y - Min.Y` of a rectangle. -/
def Rectangle.height (r : Rectangle) : Int := r.Max.Y - r.Min.Y

/-- The exact boundary `floor(i * H / k)` of the band-splitting formula. -/
def floorCut (H k : Int) (i : Nat) : Int := ((i : Int) * H) / k

/-- The exact ceiling `ceil(H / k)` for a positive `k`. -/
def ceilDiv (H k : Int) : Int := (H + k - 1) / k

/-! ### Division by zero

Go `a / b` panics when `b` is zero.  `quoChecked` makes that panic explicit, and
`launchesChecked` and `bandsChecked` are `launches` and `bands` with every division checked. -/

/-- Go `a / b` on `int` with its run-time panic: `none` when the divisor is zero. -/
def quoChecked (a b : Int) : Option Int := if b = 0 then none else some (Int.tdiv a b)

/-- The arguments of one goroutine, `i*rows/n` and `(i+1)*rows/n`, with checked divisions. -/
def launchChecked (rows n : Int) (i : Nat) : Option (Int × Int) :=
  match quoChecked (mul (i : Int) rows) n, quoChecked (mul (add (i : Int) 1) rows) n with
  | some y0, some y1 => some (y0, y1)
  | _, _ => none

/-- The loop of `Draw` with checked divisions: `none` when some iteration divides by zero. -/
def launchesChecked (rows n : Int) : Option (List (Int × Int)) :=
  (List.range n.toNat).mapM (launchChecked rows n)

/-- The row ranges of `Draw` with the division panic explicit as well: `none` when the wait
group keeps `Draw` from returning or when an iteration of the loop divides by zero. -/
def splitDrawer.bandsChecked {Img S : Type} (sd : splitDrawer Img S) (numCPU : Int)
    (r : Rectangle) : Option (List (Int × Int)) :=
  let n := workers numCPU sd.n (rows r)
  if fate n = Fate.returns then launchesChecked (rows r) n else none

/-! ### The wait group protocol of lines 66-74

An interleaving model of `wg.Add(n)`, the loop that launches the goroutines, the
`d.Draw(...); wg.Done()` of each goroutine, and `wg.Wait()`.  The scheduler picks, at every
step, either the goroutine that runs `Draw` or one of the launched band goroutines. -/

/-- The control point of the goroutine that runs `Draw`, after `wg.Add(n)`. -/
inductive Phase where
  | looping
  | waiting
  | returned
  | panicked
deriving DecidableEq, Repr

/-- The state of the protocol: the wait group counter, the number of goroutines launched so
far (the loop variable `i`), and the number of goroutines that have returned from `d.Draw`
and called `wg.Done()`. -/
structure Sched where
  counter : Int
  launched : Nat
  finished : Nat
  phase : Phase
deriving DecidableEq, Repr

/-- The choice of the scheduler: run the goroutine of `Draw`, or let a launched band
goroutine finish its `d.Draw(...); wg.Done()`. -/
inductive Event where
  | main
  | worker
deriving DecidableEq, Repr

/-- The state after `wg.Add(n)` on the zero wait group: the counter is `int32` of the low 32
bits of `n`, and a negative counter panics. -/
def Sched.start (n : Int) : Sched :=
  if wgAdd 0 n < 0 then ⟨0, 0, 0, Phase.panicked⟩ else ⟨wgAdd 0 n, 0, 0, Phase.looping⟩

/-- One step of the protocol, `none` when the chosen goroutine cannot run: `Draw` blocked in
`wg.Wait()` on a non-zero counter or already returned, or no band goroutine in flight.
`wg.Done()` is `wg.Add(-1)` and panics on a negative counter; the loop compares `i` with the
64-bit `n`. -/
def Sched.step (n : Int) (s : Sched) : Event → Option Sched
  | Event.main =>
    match s.phase with
    | Phase.looping =>
      if (s.launched : Int) < n then some { s with launched := s.launched + 1 }
      else some { s with phase := Phase.waiting }
    | Phase.waiting => if s.counter = 0 then some { s with phase := Phase.returned } else none
    | Phase.returned => none
    | Phase.panicked => none
  | Event.worker =>
    if s.phase = Phase.panicked then none
    else if s.finished < s.launched then
      (if wgAdd s.counter (-1) < 0 then some { s with phase := Phase.panicked }
       else some { s with finished := s.finished + 1, counter := wgAdd s.counter (-1) })
    else none

/-- The state after a schedule, `none` when the schedule picks a goroutine that cannot run. -/
def Sched.run (n : Int) : Sched → List Event → Option Sched
  | s, [] => some s
  | s, e :: es =>
    match s.step n e with
    | some t => Sched.run n t es
    | none => none

/-- The invariant of the protocol for a count `0 ≤ n < 2^31`: the counter is the number of
goroutines still to finish, only launched goroutines finish, at most `n` are launched, the
loop is left only after `n` launches, and `Draw` returns only on a zero counter. -/
def Sched.Inv (n : Int) (s : Sched) : Prop :=
  (0 ≤ n ∧ n < 2 ^ 31) ∧ s.phase ≠ Phase.panicked ∧ s.counter = n - s.finished ∧
    s.finished ≤ s.launched ∧ (s.launched : Int) ≤ n ∧
    (s.phase ≠ Phase.looping → (s.launched : Int) = n) ∧
    (s.phase = Phase.returned → s.counter = 0)

/-- The number of steps the protocol still has to make. -/
def Sched.fuel (n : Int) (s : Sched) : Nat :=
  (n.toNat - s.launched) + (n.toNat - s.finished) +
    (match s.phase with
      | Phase.looping => 2
      | Phase.waiting => 1
      | Phase.returned => 0
      | Phase.panicked => 0)

/-! ## Arithmetic lemmas -/

theorem wrap_eq {x : Int} (h : IsInt x) : wrap x = x := by
  unfold IsInt at h
  unfold wrap
  omega

theorem wrap_isInt (x : Int) : IsInt (wrap x) := by
  unfold IsInt wrap
  omega

theorem wrap_sub_wrap_add (a b c : Int) : wrap (wrap (a + c) - (b + c)) = wrap (a - b) := by
  unfold wrap
  omega

theorem quo_eq_ediv {a b : Int} (ha : 0 ≤ a) (hb : 0 ≤ b) : quo a b = a / b :=
  Int.tdiv_eq_ediv ha hb

theorem floorCut_zero (H k : Int) : floorCut H k 0 = 0 := by
  simp [floorCut]

theorem floorCut_top {H k : Int} (hk : 1 ≤ k) : floorCut H k k.toNat = H := by
  unfold floorCut
  have h1 : ((k.toNat : Nat) : Int) = k := Int.toNat_of_nonneg (by omega)
  rw [h1]
  exact Int.mul_ediv_cancel_left H (by omega)

theorem floorCut_mono {H k : Int} (hH : 0 ≤ H) (hk : 1 ≤ k) {i j : Nat} (hij : i ≤ j) :
    floorCut H k i ≤ floorCut H k j := by
  unfold floorCut
  apply Int.ediv_le_ediv (by omega)
  have : (i : Int) ≤ (j : Int) := by exact_mod_cast hij
  exact Int.mul_le_mul_of_nonneg_right this hH

theorem floorCut_nonneg {H k : Int} (hH : 0 ≤ H) (hk : 1 ≤ k) (i : Nat) :
    0 ≤ floorCut H k i := by
  have := floorCut_mono hH hk (Nat.zero_le i)
  rwa [floorCut_zero] at this

theorem floorCut_le {H k : Int} (hH : 0 ≤ H) (hk : 1 ≤ k) {i : Nat} (hi : i ≤ k.toNat) :
    floorCut H k i ≤ H := by
  have := floorCut_mono hH hk hi
  rwa [floorCut_top hk] at this

/-- Without overflow the goroutine arguments are the exact floor boundaries. -/
theorem launches_eq_floorCut {H k : Int} (hk : 1 ≤ k) (hkH : k ≤ H) (hfit : k * H < 2 ^ 63) :
    launches H k =
      (List.range k.toNat).map fun (i : Nat) => (floorCut H k i, floorCut H k (i + 1)) := by
  unfold launches
  apply List.map_congr_left
  intro i hi
  rw [List.mem_range] at hi
  have hH : 0 ≤ H := by omega
  have hik : (i : Int) + 1 ≤ k := by omega
  have h0 : (0 : Int) ≤ (i : Int) := Int.ofNat_nonneg i
  have h1 : (i : Int) * H ≤ ((i : Int) + 1) * H := by nlinarith
  have h2 : ((i : Int) + 1) * H ≤ k * H := Int.mul_le_mul_of_nonneg_right hik hH
  have h3 : 0 ≤ (i : Int) * H := Int.mul_nonneg h0 hH
  have hk63 : k < 2 ^ 63 := by nlinarith
  have e1 : add (i : Int) 1 = (i : Int) + 1 := wrap_eq ⟨by omega, by omega⟩
  have e2 : mul (i : Int) H = (i : Int) * H := wrap_eq ⟨by omega, by omega⟩
  have e3 : mul ((i : Int) + 1) H = ((i : Int) + 1) * H := wrap_eq ⟨by omega, by omega⟩
  rw [e1, e2, e3, quo_eq_ediv h3 (by omega), quo_eq_ediv (by omega) (by omega)]
  simp [floorCut]

/-! ## Chains of contiguous row ranges -/

theorem chain_count (b : Nat → Int) (hb : ∀ i, b i ≤ b (i + 1)) (y : Int) (m : Nat) :
    b 0 ≤ b m ∧
      (((List.range m).map fun (i : Nat) => (b i, b (i + 1))).countP (inBand y)
        = if b 0 ≤ y ∧ y < b m then 1 else 0) := by
  induction m with
  | zero =>
    refine ⟨le_refl _, ?_⟩
    have : ¬ (b 0 ≤ y ∧ y < b 0) := by omega
    simp [this]
  | succ m ih =>
    obtain ⟨h0, hc⟩ := ih
    have hm := hb m
    refine ⟨by omega, ?_⟩
    rw [List.range_succ, List.map_append, List.countP_append, hc]
    simp only [List.map_cons, List.map_nil, List.countP_cons, List.countP_nil, inBand]
    by_cases h1 : b 0 ≤ y <;> by_cases h2 : y < b m <;> by_cases h3 : y < b (m + 1) <;>
      simp [h1, h2, h3] <;> omega

theorem chain_sum (b : Nat → Int) (m : Nat) :
    (((List.range m).map fun (i : Nat) => (b i, b (i + 1))).map bandSize).sum = b m - b 0 := by
  induction m with
  | zero => simp
  | succ m ih =>
    rw [List.range_succ, List.map_append, List.map_append, List.sum_append, ih]
    simp [bandSize]

theorem chain_getElem? (b : Nat → Int) (m i : Nat) :
    ((List.range m).map fun (i : Nat) => (b i, b (i + 1)))[i]?
      = if i < m then some (b i, b (i + 1)) else none := by
  rw [List.getElem?_map]
  by_cases h : i < m
  · simp [h, List.getElem?_range h]
  · have : (List.range m)[i]? = none := List.getElem?_eq_none (by simp; omega)
    simp [h, this]

/-! ## The worker count -/

theorem workers_eq_min {numCPU cfg H : Int} : workers numCPU cfg H = min (resolve numCPU cfg) H := by
  unfold workers
  simp only
  split <;> omega

theorem resolve_pos {numCPU cfg : Int} (hc : 1 ≤ numCPU) (hn : 0 ≤ cfg) :
    1 ≤ resolve numCPU cfg := by
  unfold resolve
  split <;> omega

theorem wrap32_eq {x : Int} (h0 : -2 ^ 31 ≤ x) (h1 : x < 2 ^ 31) : wrap32 x = x := by
  unfold wrap32
  omega

/-- A count `0 ≤ n < 2^31` is registered as it is, and `Draw` returns. -/
theorem fate_returns {n : Int} (h0 : 0 ≤ n) (h1 : n < 2 ^ 31) : fate n = Fate.returns := by
  have e : wgAdd 0 n = n := by
    unfold wgAdd
    rw [Int.zero_add]
    exact wrap32_eq (by omega) h1
  unfold fate
  rw [e]
  have hn : ¬ n < 0 := by omega
  simp only [hn, if_false, if_true]
  by_cases hz : n ≤ 0
  · have : n = 0 := by omega
    simp [this]
  · simp [hz]

theorem bands_eq {Img S : Type} (sd : splitDrawer Img S) (numCPU : Int) (r : Rectangle)
    (hn : 1 ≤ resolve numCPU sd.n) (hH : 0 ≤ rows r)
    (hcnt : workers numCPU sd.n (rows r) < 2 ^ 31) :
    sd.bands numCPU r = some (launches (rows r) (workers numCPU sd.n (rows r))) := by
  unfold splitDrawer.bands
  have h0 : 0 ≤ workers numCPU sd.n (rows r) := by rw [workers_eq_min]; omega
  simp [fate_returns h0 hcnt]

theorem launches_length (H n : Int) : (launches H n).length = n.toNat := by
  simp [launches]

/-- The goroutines launched when the count is registered as it is. -/
theorem dispatched_eq {Img S : Type} (sd : splitDrawer Img S) (numCPU : Int) (r : Rectangle)
    (h0 : 0 ≤ workers numCPU sd.n (rows r)) (hcnt : workers numCPU sd.n (rows r) < 2 ^ 31) :
    sd.dispatched numCPU r = launches (rows r) (workers numCPU sd.n (rows r)) := by
  unfold splitDrawer.dispatched
  have e : wgAdd 0 (workers numCPU sd.n (rows r)) = workers numCPU sd.n (rows r) := by
    unfold wgAdd
    rw [Int.zero_add]
    exact wrap32_eq (by omega) hcnt
  have hneg : ¬ workers numCPU sd.n (rows r) < 0 := by omega
  simp [e, hneg]

/-- No goroutine is launched for a count that is not positive. -/
theorem dispatched_nil {Img S : Type} (sd : splitDrawer Img S) (numCPU : Int) (r : Rectangle)
    (h0 : workers numCPU sd.n (rows r) ≤ 0) : sd.dispatched numCPU r = [] := by
  unfold splitDrawer.dispatched
  have hz : (workers numCPU sd.n (rows r)).toNat = 0 := by omega
  simp only []
  split
  · rfl
  · simp [launches, hz]

/-- Without overflow in the products, the bands of `Draw` are the chain of floor boundaries
`floor(i * H / k)` with `H = rows r` and `k = min(n, H)`. -/
theorem bands_eq_floorCut {Img S : Type} (sd : splitDrawer Img S) (numCPU : Int) (r : Rectangle)
    (hn : 1 ≤ resolve numCPU sd.n) (hH : 0 ≤ rows r)
    (hcnt : workers numCPU sd.n (rows r) < 2 ^ 31)
    (hfit : workers numCPU sd.n (rows r) * rows r < 2 ^ 63) :
    sd.bands numCPU r = some ((List.range (workers numCPU sd.n (rows r)).toNat).map
      fun (i : Nat) => (floorCut (rows r) (workers numCPU sd.n (rows r)) i,
        floorCut (rows r) (workers numCPU sd.n (rows r)) (i + 1))) := by
  rw [bands_eq sd numCPU r hn hH hcnt]
  have hw : workers numCPU sd.n (rows r) = min (resolve numCPU sd.n) (rows r) := workers_eq_min
  rcases Int.lt_or_le 0 (rows r) with hpos | hle
  · rw [launches_eq_floorCut (by omega) (by omega) hfit]
  · have h0 : rows r = 0 := by omega
    have hk : workers numCPU sd.n (rows r) = 0 := by omega
    rw [hk]
    simp [launches]

/-- With a count below `2^31` and without overflow in the products, `Draw` returns, its row
ranges partition `[0, rows r)`, and every range is ordered and lies within `[0, rows r]`. -/
theorem bands_spec {Img S : Type} (sd : splitDrawer Img S) (numCPU : Int) (r : Rectangle)
    (hn : 1 ≤ resolve numCPU sd.n) (hH : 0 ≤ rows r)
    (hcnt : workers numCPU sd.n (rows r) < 2 ^ 31)
    (hfit : workers numCPU sd.n (rows r) * rows r < 2 ^ 63) :
    ∃ bs, sd.bands numCPU r = some bs ∧
      (∀ y : Int, bs.countP (inBand y) = if 0 ≤ y ∧ y < rows r then 1 else 0) ∧
      (∀ b ∈ bs, 0 ≤ b.1 ∧ b.1 ≤ b.2 ∧ b.2 ≤ rows r) := by
  refine ⟨_, bands_eq_floorCut sd numCPU r hn hH hcnt hfit, ?_, ?_⟩
  · intro y
    have hw : workers numCPU sd.n (rows r) = min (resolve numCPU sd.n) (rows r) :=
      workers_eq_min
    rcases Int.lt_or_le 0 (rows r) with hpos | hle
    · have hk : 1 ≤ workers numCPU sd.n (rows r) := by omega
      have hch := (chain_count (floorCut (rows r) (workers numCPU sd.n (rows r)))
        (fun i => floorCut_mono hH hk (Nat.le_succ i)) y
        (workers numCPU sd.n (rows r)).toNat).2
      rw [floorCut_zero, floorCut_top hk] at hch
      exact hch
    · have h0 : rows r = 0 := by omega
      have hk : workers numCPU sd.n (rows r) = 0 := by omega
      have hno : ¬ (0 ≤ y ∧ y < rows r) := by omega
      rw [hk]
      simp [hno]
  · intro b hb
    rw [List.mem_map] at hb
    obtain ⟨i, hi, rfl⟩ := hb
    rw [List.mem_range] at hi
    have hk : 1 ≤ workers numCPU sd.n (rows r) := by omega
    exact ⟨floorCut_nonneg hH hk i, floorCut_mono hH hk (Nat.le_succ i),
      floorCut_le hH hk (by omega)⟩

/-- The height computed by `Draw` is the exact height when that is a non-negative `int`. -/
theorem rows_eq_height {r : Rectangle} (h0 : 0 ≤ r.height) (h1 : r.height < 2 ^ 63) :
    rows r = r.height := by
  unfold rows sub
  unfold Rectangle.height at h0 h1
  exact wrap_eq ⟨by omega, h1⟩

/-- A height whose products fit is itself a 64-bit `int`. -/
theorem height_lt {n H : Int} (hn : 1 ≤ n) (hH : 0 ≤ H) (hfit : min n H * H < 2 ^ 63) :
    H < 2 ^ 63 := by
  rcases Int.lt_or_le 0 H with hpos | hle
  · have hm : 1 ≤ min n H := by omega
    nlinarith
  · omega

/-- The rectangle of a band whose row bounds are ordered and do not overflow. -/
theorem bandCall_rect (r : Rectangle) (sp : Point) (y : Int × Int) (hx : r.Min.X ≤ r.Max.X)
    (h1 : IsInt (r.Min.Y + y.1)) (h2 : IsInt (r.Min.Y + y.2)) (h12 : y.1 ≤ y.2) :
    (bandCall r sp y).1 = ⟨⟨r.Min.X, r.Min.Y + y.1⟩, ⟨r.Max.X, r.Min.Y + y.2⟩⟩ := by
  have hx2 : ¬ r.Min.X > r.Max.X := by omega
  have hy2 : ¬ r.Min.Y + y.1 > r.Min.Y + y.2 := by omega
  simp [bandCall, Rect, add, wrap_eq h1, wrap_eq h2, hx2, hy2]

/-- For a valid rectangle of non-negative height, a count below `2^31` and products that fit,
`Draw` returns, its row ranges partition `[0, height)`, and every band rectangle is the
destination rectangle restricted to the rows of the band. -/
theorem calls_spec {Img S : Type} (sd : splitDrawer Img S) (numCPU : Int) (r : Rectangle)
    (sp : Point) (hv : r.Valid) (hx : r.Min.X ≤ r.Max.X) (hH : 0 ≤ r.height)
    (hn : 1 ≤ resolve numCPU sd.n)
    (hcnt : min (resolve numCPU sd.n) r.height < 2 ^ 31)
    (hfit : min (resolve numCPU sd.n) r.height * r.height < 2 ^ 63) :
    ∃ bs, sd.bands numCPU r = some bs ∧
      sd.calls numCPU r sp = some (bs.map (bandCall r sp)) ∧
      (∀ y : Int, bs.countP (inBand y) = if 0 ≤ y ∧ y < r.height then 1 else 0) ∧
      (∀ b ∈ bs, 0 ≤ b.1 ∧ b.1 ≤ b.2 ∧ b.2 ≤ r.height) ∧
      (∀ b ∈ bs, (bandCall r sp b).1
        = ⟨⟨r.Min.X, r.Min.Y + b.1⟩, ⟨r.Max.X, r.Min.Y + b.2⟩⟩) := by
  have hrows : rows r = r.height := rows_eq_height hH (height_lt hn hH hfit)
  have hfit2 : workers numCPU sd.n (rows r) * rows r < 2 ^ 63 := by
    rw [workers_eq_min, hrows]; exact hfit
  have hcnt2 : workers numCPU sd.n (rows r) < 2 ^ 31 := by
    rw [workers_eq_min, hrows]; exact hcnt
  obtain ⟨bs, hbs, hcount, hbound⟩ := bands_spec sd numCPU r hn (by omega) hcnt2 hfit2
  rw [hrows] at hcount hbound
  refine ⟨bs, hbs, by simp [splitDrawer.calls, hbs], hcount, hbound, ?_⟩
  intro b hb
  obtain ⟨b0, b1, b2⟩ := hbound b hb
  obtain ⟨⟨_, hminY⟩, ⟨_, hmaxY⟩⟩ := hv
  unfold IsInt at hminY hmaxY
  unfold Rectangle.height at b2 hH
  exact bandCall_rect r sp b hx ⟨by omega, by omega⟩ ⟨by omega, by omega⟩ b1

/-- The band at index `i` as `Draw` computes it. -/
theorem bands_getElem? {Img S : Type} (sd : splitDrawer Img S) (numCPU : Int) (r : Rectangle)
    (hn : 1 ≤ resolve numCPU sd.n) (hH : 0 ≤ rows r)
    (hcnt : workers numCPU sd.n (rows r) < 2 ^ 31) (i : Nat)
    (hi : (i : Int) < workers numCPU sd.n (rows r)) :
    ∃ bs, sd.bands numCPU r = some bs ∧
      bs[i]? = some (quo (mul (i : Int) (rows r)) (workers numCPU sd.n (rows r)),
        quo (mul (add (i : Int) 1) (rows r)) (workers numCPU sd.n (rows r))) := by
  refine ⟨_, bands_eq sd numCPU r hn hH hcnt, ?_⟩
  unfold launches
  rw [List.getElem?_map, List.getElem?_range (by omega)]
  rfl

/-! ## Claims -/

/-- C1 (amended): for every destination height `H = rows r ≥ 0` and every requested worker
count `n ≥ 0` (`0` resolved to a hardware count `c ≥ 1`), provided the clamped count
`min(n, H)` is below `2^31` (it fits the 32-bit counter of the wait group) and the products
computed by `Draw` fit in a 64-bit `int` (`min(n, H) * H < 2^63`), `Draw` returns and the row
ranges `[y0, y1)` of its bands partition `[0, H)`: a row offset `y` lies in exactly one band
when `0 ≤ y < H` and in no band otherwise. -/
theorem rows_partition {Img S : Type} (sd : splitDrawer Img S) (numCPU : Int) (r : Rectangle)
    (hc : 1 ≤ numCPU) (hn : 0 ≤ sd.n) (hH : 0 ≤ rows r)
    (hcnt : workers numCPU sd.n (rows r) < 2 ^ 31)
    (hfit : workers numCPU sd.n (rows r) * rows r < 2 ^ 63) :
    ∃ bs, sd.bands numCPU r = some bs ∧
      ∀ y : Int, bs.countP (inBand y) = if 0 ≤ y ∧ y < rows r then 1 else 0 := by
  obtain ⟨bs, hbs, hcount, _⟩ := bands_spec sd numCPU r (resolve_pos hc hn) hH hcnt hfit
  exact ⟨bs, hbs, hcount⟩

/-- Witness for C1: a 5 x 10 rectangle drawn by 3 workers. -/
theorem rows_partition_witness :
    (1 : Int) ≤ 4 ∧ (0 : Int) ≤ (New none 3 : splitDrawer Unit Unit).n ∧
      0 ≤ rows ⟨⟨0, 0⟩, ⟨5, 10⟩⟩ ∧
      workers 4 (New none 3 : splitDrawer Unit Unit).n (rows ⟨⟨0, 0⟩, ⟨5, 10⟩⟩) < 2 ^ 31 ∧
      workers 4 (New none 3 : splitDrawer Unit Unit).n (rows ⟨⟨0, 0⟩, ⟨5, 10⟩⟩)
        * rows ⟨⟨0, 0⟩, ⟨5, 10⟩⟩ < 2 ^ 63 ∧
      ∃ bs, (New none 3 : splitDrawer Unit Unit).bands 4 ⟨⟨0, 0⟩, ⟨5, 10⟩⟩ = some bs ∧
        ∀ y : Int, bs.countP (inBand y)
          = if 0 ≤ y ∧ y < rows ⟨⟨0, 0⟩, ⟨5, 10⟩⟩ then 1 else 0 :=
  ⟨by decide, by decide, by decide, by decide, by decide,
    rows_partition (New none 3 : splitDrawer Unit Unit) 4 ⟨⟨0, 0⟩, ⟨5, 10⟩⟩
      (by decide) (by decide) (by decide) (by decide) (by decide)⟩

/-- C1 as stated fails: a rectangle of height `2^62` drawn by 3 workers makes `2 * rows`
overflow, and the row `2^62 - 1` of `[0, H)` lies in no band; and a rectangle of height
`2^31` drawn by `2^31` workers makes `wg.Add(2^31)` panic on the counter `-2^31`, so that no
band is dispatched. -/
theorem rows_partition_overflow :
    ((0 : Int) ≤ rows ⟨⟨0, 0⟩, ⟨1, 2 ^ 62⟩⟩ ∧
      ¬ ∃ bs, (New none 3 : splitDrawer Unit Unit).bands 8 ⟨⟨0, 0⟩, ⟨1, 2 ^ 62⟩⟩ = some bs ∧
        ∀ y : Int, bs.countP (inBand y)
          = if 0 ≤ y ∧ y < rows ⟨⟨0, 0⟩, ⟨1, 2 ^ 62⟩⟩ then 1 else 0) ∧
    ((0 : Int) ≤ rows ⟨⟨0, 0⟩, ⟨1, 2 ^ 31⟩⟩ ∧
      workers 8 (New none (2 ^ 31) : splitDrawer Unit Unit).n (rows ⟨⟨0, 0⟩, ⟨1, 2 ^ 31⟩⟩)
        * rows ⟨⟨0, 0⟩, ⟨1, 2 ^ 31⟩⟩ < 2 ^ 63 ∧
      fate (workers 8 (New none (2 ^ 31) : splitDrawer Unit Unit).n
        (rows ⟨⟨0, 0⟩, ⟨1, 2 ^ 31⟩⟩)) = Fate.addPanics ∧
      (New none (2 ^ 31) : splitDrawer Unit Unit).bands 8 ⟨⟨0, 0⟩, ⟨1, 2 ^ 31⟩⟩ = none ∧
      (New none (2 ^ 31) : splitDrawer Unit Unit).dispatched 8 ⟨⟨0, 0⟩, ⟨1, 2 ^ 31⟩⟩ = []) := by
  refine ⟨⟨by decide, ?_⟩, by decide⟩
  rintro ⟨bs, hbs, h⟩
  have e : (New none 3 : splitDrawer Unit Unit).bands 8 ⟨⟨0, 0⟩, ⟨1, 2 ^ 62⟩⟩
      = some [(0, 1537228672809129301), (1537228672809129301, -3074457345618258602),
          (-3074457345618258602, -1537228672809129301)] := by decide
  rw [e] at hbs
  cases hbs
  have h1 := h (2 ^ 62 - 1)
  revert h1
  decide

/-- C2 (amended): for every height `H = rows r ≥ 1` and resolved worker count `n ≥ 1`, with
`k = min(n, H)` and provided `k < 2^31` (the count fits the 32-bit counter of the wait group)
and `k * H < 2^63` (no product overflows), `Draw` returns having dispatched exactly `k`
bands, band `i` covers the rows `[floor(i*H/k), floor((i+1)*H/k))`, consecutive bands are
contiguous, and the band row counts sum to `H`; a height of 10 drawn by 3 workers gives the
band sizes `[3, 3, 4]`. -/
theorem band_boundaries {Img S : Type} (sd : splitDrawer Img S) (numCPU : Int) (r : Rectangle)
    (hn : 1 ≤ resolve numCPU sd.n) (hH : 1 ≤ rows r)
    (hcnt : min (resolve numCPU sd.n) (rows r) < 2 ^ 31)
    (hfit : min (resolve numCPU sd.n) (rows r) * rows r < 2 ^ 63) :
    (∃ bs, sd.bands numCPU r = some bs ∧
      bs.length = (min (resolve numCPU sd.n) (rows r)).toNat ∧
      (∀ i : Nat, (i : Int) < min (resolve numCPU sd.n) (rows r) →
        bs[i]? = some ((i : Int) * rows r / min (resolve numCPU sd.n) (rows r),
          ((i : Int) + 1) * rows r / min (resolve numCPU sd.n) (rows r))) ∧
      (∀ (i : Nat) (b c : Int × Int), bs[i]? = some b → bs[i + 1]? = some c → b.2 = c.1) ∧
      (bs.map bandSize).sum = rows r) ∧
    ((New none 3 : splitDrawer Unit Unit).bands 1 ⟨⟨0, 0⟩, ⟨1, 10⟩⟩).map (List.map bandSize)
      = some [3, 3, 4] := by
  refine ⟨?_, by decide⟩
  have hw : workers numCPU sd.n (rows r) = min (resolve numCPU sd.n) (rows r) := workers_eq_min
  rw [← hw] at hfit hcnt ⊢
  have hk : 1 ≤ workers numCPU sd.n (rows r) := by omega
  refine ⟨_, bands_eq_floorCut sd numCPU r hn (by omega) hcnt hfit, by simp, ?_, ?_, ?_⟩
  · intro i hi
    rw [chain_getElem?]
    have : i < (workers numCPU sd.n (rows r)).toNat := by omega
    simp [this, floorCut]
  · intro i b c hb hc
    rw [chain_getElem?] at hb hc
    split at hb <;> split at hc <;> simp_all
    rw [← hb, ← hc]
  · rw [chain_sum, floorCut_zero, floorCut_top hk]
    omega

/-- Witness for C2: height 7 drawn by 4 workers. -/
theorem band_boundaries_witness :
    (1 : Int) ≤ resolve 8 (New none 4 : splitDrawer Unit Unit).n ∧
      1 ≤ rows ⟨⟨0, 0⟩, ⟨1, 7⟩⟩ ∧
      min (resolve 8 (New none 4 : splitDrawer Unit Unit).n) (rows ⟨⟨0, 0⟩, ⟨1, 7⟩⟩)
        < 2 ^ 31 ∧
      min (resolve 8 (New none 4 : splitDrawer Unit Unit).n) (rows ⟨⟨0, 0⟩, ⟨1, 7⟩⟩)
        * rows ⟨⟨0, 0⟩, ⟨1, 7⟩⟩ < 2 ^ 63 ∧
      ∃ bs, (New none 4 : splitDrawer Unit Unit).bands 8 ⟨⟨0, 0⟩, ⟨1, 7⟩⟩ = some bs ∧
        (bs.map bandSize).sum = rows ⟨⟨0, 0⟩, ⟨1, 7⟩⟩ := by
  refine ⟨by decide, by decide, by decide, by decide, ?_⟩
  obtain ⟨bs, h1, _, _, _, h5⟩ :=
    (band_boundaries (New none 4 : splitDrawer Unit Unit) 8 ⟨⟨0, 0⟩, ⟨1, 7⟩⟩
      (by decide) (by decide) (by decide) (by decide)).1
  exact ⟨bs, h1, h5⟩

/-- C2 as stated fails: for height `2^62` and 5 workers the product `2 * rows` overflows and
band 1 does not end at `floor(2 * H / 5)`; and for height `2^31` and `2^31` workers
`wg.Add(2^31)` panics on the counter `-2^31` and no band is dispatched. -/
theorem band_boundaries_overflow :
    ((1 : Int) ≤ resolve 8 (New none 5 : splitDrawer Unit Unit).n ∧
      1 ≤ rows ⟨⟨0, 0⟩, ⟨1, 2 ^ 62⟩⟩ ∧
      ¬ ∃ bs, (New none 5 : splitDrawer Unit Unit).bands 8 ⟨⟨0, 0⟩, ⟨1, 2 ^ 62⟩⟩ = some bs ∧
        bs[1]? = some ((1 : Int) * rows ⟨⟨0, 0⟩, ⟨1, 2 ^ 62⟩⟩ / 5,
          ((1 : Int) + 1) * rows ⟨⟨0, 0⟩, ⟨1, 2 ^ 62⟩⟩ / 5)) ∧
    ((1 : Int) ≤ resolve 8 (New none (2 ^ 31) : splitDrawer Unit Unit).n ∧
      1 ≤ rows ⟨⟨0, 0⟩, ⟨2, 2 ^ 31⟩⟩ ∧
      min (resolve 8 (New none (2 ^ 31) : splitDrawer Unit Unit).n)
          (rows ⟨⟨0, 0⟩, ⟨2, 2 ^ 31⟩⟩) * rows ⟨⟨0, 0⟩, ⟨2, 2 ^ 31⟩⟩ < 2 ^ 63 ∧
      (New none (2 ^ 31) : splitDrawer Unit Unit).bands 8 ⟨⟨0, 0⟩, ⟨2, 2 ^ 31⟩⟩ = none ∧
      (New none (2 ^ 31) : splitDrawer Unit Unit).dispatched 8 ⟨⟨0, 0⟩, ⟨2, 2 ^ 31⟩⟩ = []) := by
  refine ⟨⟨by decide, by decide, ?_⟩, by decide⟩
  rintro ⟨bs, hbs, h⟩
  have e : ((New none 5 : splitDrawer Unit Unit).bands 8 ⟨⟨0, 0⟩, ⟨1, 2 ^ 62⟩⟩).map
      (fun l => l[1]?) = some (some (922337203685477580, -1844674407370955161)) := by decide
  rw [hbs] at e
  simp only [Option.map_some', Option.some.injEq] at e
  rw [e] at h
  revert h
  decide

/-- C3 (amended): a destination rectangle of height 7 drawn with worker count 4 is split into
four bands that have, in band-index order, exactly 1, 2, 2 and 2 rows. -/
theorem bands_seven_by_four :
    ((New none 4 : splitDrawer Unit Unit).bands 8 ⟨⟨0, 0⟩, ⟨9, 7⟩⟩).map (List.map bandSize)
      = some [1, 2, 2, 2] := by
  decide

/-- C3 as stated fails: the band sizes for height 7 and 4 workers are not 1, 1, 2 and 3. -/
theorem bands_seven_by_four_not_1123 :
    ((New none 4 : splitDrawer Unit Unit).bands 8 ⟨⟨0, 0⟩, ⟨9, 7⟩⟩).map (List.map bandSize)
      ≠ some [1, 1, 2, 3] := by
  decide

/-- C4 (failing input): for the rectangle `Min = (0, 1)`, `Max = (1, 0)` of height `-1` and
worker count 1 the clamp sets `n = -1`, `wg.Add(-1)` panics and `Draw` does not return
normally; no band is dispatched. -/
theorem draw_negative_height_panics :
    rows ⟨⟨0, 1⟩, ⟨1, 0⟩⟩ = -1 ∧
      workers 8 (New none 1 : splitDrawer Unit Unit).n (rows ⟨⟨0, 1⟩, ⟨1, 0⟩⟩) = -1 ∧
      (New none 1 : splitDrawer Unit Unit).calls 8 ⟨⟨0, 1⟩, ⟨1, 0⟩⟩ ⟨0, 0⟩ = none ∧
      (New none 1 : splitDrawer Unit Unit).Draw 8 ⟨fun dst _ _ _ => dst⟩ ()
        ⟨⟨0, 1⟩, ⟨1, 0⟩⟩ () ⟨0, 0⟩ = none ∧
      fate (workers 8 (New none 1 : splitDrawer Unit Unit).n (rows ⟨⟨0, 1⟩, ⟨1, 0⟩⟩))
        = Fate.addPanics ∧
      (New none 1 : splitDrawer Unit Unit).dispatched 8 ⟨⟨0, 1⟩, ⟨1, 0⟩⟩ = [] := by
  decide

/-- C5 (amended): for every destination rectangle of width zero (`Min.X = Max.X`), whatever
its height and the worker count, every rectangle that `Draw` passes to the compositing rule is
empty; and `Draw` does not skip the dispatch: for a height `H = rows r ≥ 0` and a resolved
worker count `n ≥ 1` with `min(n, H) < 2^31` it returns after invoking the rule exactly
`min(n, H)` times, once per band. -/
theorem zero_width_bands_empty {Img S : Type} (sd : splitDrawer Img S) (numCPU : Int)
    (r : Rectangle) (sp : Point) (hx : r.Min.X = r.Max.X) :
    (∀ c ∈ sd.invocations numCPU r sp, c.1.Empty) ∧
      (1 ≤ resolve numCPU sd.n → 0 ≤ rows r → min (resolve numCPU sd.n) (rows r) < 2 ^ 31 →
        sd.calls numCPU r sp = some (sd.invocations numCPU r sp) ∧
        ((sd.invocations numCPU r sp).length : Int) = min (resolve numCPU sd.n) (rows r)) := by
  constructor
  · intro c hc
    unfold splitDrawer.invocations at hc
    rw [List.mem_map] at hc
    obtain ⟨y, _, rfl⟩ := hc
    left
    simp [bandCall, Rect, hx]
  · intro hn hH hcnt
    have hw : workers numCPU sd.n (rows r) = min (resolve numCPU sd.n) (rows r) :=
      workers_eq_min
    have h0 : 0 ≤ workers numCPU sd.n (rows r) := by omega
    have hd := dispatched_eq sd numCPU r h0 (by omega)
    constructor
    · simp [splitDrawer.calls, splitDrawer.invocations, hd,
        bands_eq sd numCPU r hn hH (by omega)]
    · unfold splitDrawer.invocations
      rw [hd, List.length_map, launches_length, ← hw]
      exact Int.toNat_of_nonneg h0

/-- Witness for C5: a rectangle of width 0 and height 2 drawn by one worker; the single
invocation is on an empty rectangle. -/
theorem zero_width_bands_empty_witness :
    (⟨⟨0, 0⟩, ⟨0, 2⟩⟩ : Rectangle).Min.X = (⟨⟨0, 0⟩, ⟨0, 2⟩⟩ : Rectangle).Max.X ∧
      (New none 1 : splitDrawer Unit Unit).invocations 8 ⟨⟨0, 0⟩, ⟨0, 2⟩⟩ ⟨0, 0⟩
        = [(⟨⟨0, 0⟩, ⟨0, 2⟩⟩, ⟨0, 0⟩)] ∧
      (∀ c ∈ (New none 1 : splitDrawer Unit Unit).invocations 8 ⟨⟨0, 0⟩, ⟨0, 2⟩⟩ ⟨0, 0⟩,
        c.1.Empty) ∧
      ((New none 1 : splitDrawer Unit Unit).calls 8 ⟨⟨0, 0⟩, ⟨0, 2⟩⟩ ⟨0, 0⟩
          = some ((New none 1 : splitDrawer Unit Unit).invocations 8
            ⟨⟨0, 0⟩, ⟨0, 2⟩⟩ ⟨0, 0⟩) ∧
        (((New none 1 : splitDrawer Unit Unit).invocations 8
            ⟨⟨0, 0⟩, ⟨0, 2⟩⟩ ⟨0, 0⟩).length : Int)
          = min (resolve 8 (New none 1 : splitDrawer Unit Unit).n)
              (rows ⟨⟨0, 0⟩, ⟨0, 2⟩⟩)) :=
  ⟨by decide, by decide,
    (zero_width_bands_empty (New none 1 : splitDrawer Unit Unit) 8 ⟨⟨0, 0⟩, ⟨0, 2⟩⟩ ⟨0, 0⟩
      (by decide)).1,
    (zero_width_bands_empty (New none 1 : splitDrawer Unit Unit) 8 ⟨⟨0, 0⟩, ⟨0, 2⟩⟩ ⟨0, 0⟩
      (by decide)).2 (by decide) (by decide) (by decide)⟩

/-- C5 as stated fails: a rectangle of width 0 and height 2 drawn by one worker is not a
no-op, the compositing rule is invoked once (on an empty rectangle); and for the rectangle
with `Min = (5, 0)`, `Max = (2, 3)` of negative width the rule is invoked once on the
non-empty rectangle `(2, 0)-(5, 3)`. -/
theorem zero_width_still_dispatches :
    ((⟨⟨0, 0⟩, ⟨0, 2⟩⟩ : Rectangle).Max.X - (⟨⟨0, 0⟩, ⟨0, 2⟩⟩ : Rectangle).Min.X ≤ 0 ∧
      (New none 1 : splitDrawer Unit Unit).calls 8 ⟨⟨0, 0⟩, ⟨0, 2⟩⟩ ⟨0, 0⟩
        = some [(⟨⟨0, 0⟩, ⟨0, 2⟩⟩, ⟨0, 0⟩)] ∧
      (New none 1 : splitDrawer Unit Unit).invocations 8 ⟨⟨0, 0⟩, ⟨0, 2⟩⟩ ⟨0, 0⟩ ≠ []) ∧
    ((⟨⟨5, 0⟩, ⟨2, 3⟩⟩ : Rectangle).Max.X - (⟨⟨5, 0⟩, ⟨2, 3⟩⟩ : Rectangle).Min.X ≤ 0 ∧
      (New none 1 : splitDrawer Unit Unit).invocations 8 ⟨⟨5, 0⟩, ⟨2, 3⟩⟩ ⟨0, 0⟩
        = [(⟨⟨2, 0⟩, ⟨5, 3⟩⟩, ⟨0, 0⟩)] ∧
      ¬ (⟨⟨2, 0⟩, ⟨5, 3⟩⟩ : Rectangle).Empty) := by
  decide

/-- C6 (amended): for every well-formed destination rectangle `r` with `int` coordinates and
every resolved worker count `n ≥ 1`, provided `min(n, H) < 2^31` (the count fits the 32-bit
counter of the wait group) and `min(n, H) * H < 2^63` (no product overflows) for the height
`H` of `r`, `Draw` returns, every pixel inside `r` lies in the rectangle of exactly one
compositing invocation, and a pixel outside `r` lies in none; hence no two invocations share
a pixel. -/
theorem pixels_covered_once {Img S : Type} (sd : splitDrawer Img S) (numCPU : Int)
    (r : Rectangle) (sp : Point) (hv : r.Valid) (hwf : r.WellFormed)
    (hn : 1 ≤ resolve numCPU sd.n)
    (hcnt : min (resolve numCPU sd.n) r.height < 2 ^ 31)
    (hfit : min (resolve numCPU sd.n) r.height * r.height < 2 ^ 63) :
    ∃ cs, sd.calls numCPU r sp = some cs ∧
      ∀ p : Point, cs.countP (fun c => decide (p.In c.1)) = if p.In r then 1 else 0 := by
  have hH : 0 ≤ r.height := by unfold Rectangle.height; have := hwf.2; omega
  obtain ⟨bs, _, hcs, hcount, _, hrect⟩ := calls_spec sd numCPU r sp hv hwf.1 hH hn hcnt hfit
  refine ⟨_, hcs, ?_⟩
  intro p
  rw [List.countP_map]
  by_cases hpx : r.Min.X ≤ p.X ∧ p.X < r.Max.X
  · have hcongr : bs.countP ((fun c => decide (p.In c.1)) ∘ bandCall r sp)
        = bs.countP (inBand (p.Y - r.Min.Y)) := by
      apply List.countP_congr
      intro b hb
      simp only [Function.comp, hrect b hb, Point.In, inBand, decide_eq_true_eq]
      constructor
      · intro h; omega
      · intro h; exact ⟨hpx.1, hpx.2, by omega, by omega⟩
    rw [hcongr, hcount]
    unfold Rectangle.height
    by_cases hin : p.In r
    · have hin2 := hin
      unfold Point.In at hin2
      have : 0 ≤ p.Y - r.Min.Y ∧ p.Y - r.Min.Y < r.Max.Y - r.Min.Y := by omega
      rw [if_pos this, if_pos hin]
    · have : ¬ (0 ≤ p.Y - r.Min.Y ∧ p.Y - r.Min.Y < r.Max.Y - r.Min.Y) := by
        intro h
        exact hin ⟨hpx.1, hpx.2, by omega, by omega⟩
      rw [if_neg this, if_neg hin]
  · have hin : ¬ p.In r := fun h => hpx ⟨h.1, h.2.1⟩
    rw [if_neg hin, List.countP_eq_zero]
    intro b hb
    simp only [Function.comp, hrect b hb, Point.In, decide_eq_true_eq]
    intro h
    exact hpx ⟨h.1, h.2.1⟩

/-- Witness for C6: the rectangle `(2, 3)-(6, 10)` drawn by 3 workers. -/
theorem pixels_covered_once_witness :
    (⟨⟨2, 3⟩, ⟨6, 10⟩⟩ : Rectangle).Valid ∧ (⟨⟨2, 3⟩, ⟨6, 10⟩⟩ : Rectangle).WellFormed ∧
      1 ≤ resolve 8 (New none 3 : splitDrawer Unit Unit).n ∧
      min (resolve 8 (New none 3 : splitDrawer Unit Unit).n)
          (⟨⟨2, 3⟩, ⟨6, 10⟩⟩ : Rectangle).height < 2 ^ 31 ∧
      min (resolve 8 (New none 3 : splitDrawer Unit Unit).n)
          (⟨⟨2, 3⟩, ⟨6, 10⟩⟩ : Rectangle).height
        * (⟨⟨2, 3⟩, ⟨6, 10⟩⟩ : Rectangle).height < 2 ^ 63 ∧
      ∃ cs, (New none 3 : splitDrawer Unit Unit).calls 8 ⟨⟨2, 3⟩, ⟨6, 10⟩⟩ ⟨0, 0⟩ = some cs ∧
        ∀ p : Point, cs.countP (fun c => decide (p.In c.1))
          = if p.In ⟨⟨2, 3⟩, ⟨6, 10⟩⟩ then 1 else 0 :=
  ⟨by decide, by decide, by decide, by decide, by decide,
    pixels_covered_once (New none 3 : splitDrawer Unit Unit) 8 ⟨⟨2, 3⟩, ⟨6, 10⟩⟩ ⟨0, 0⟩
      (by decide) (by decide) (by decide) (by decide) (by decide)⟩

/-- C6 as stated fails: for the well-formed rectangle `(0, 0)-(1, 2^62)` and 3 workers the
products overflow, and the pixel `(0, 0)` lies in the rectangles of two invocations; and for
the well-formed rectangle `(0, 0)-(1, 2^31)` and `2^31` workers `wg.Add(2^31)` panics and no
invocation is made, so the pixel `(0, 0)` is covered by none. -/
theorem pixels_covered_twice_on_overflow :
    ((⟨⟨0, 0⟩, ⟨1, 2 ^ 62⟩⟩ : Rectangle).Valid ∧
      (⟨⟨0, 0⟩, ⟨1, 2 ^ 62⟩⟩ : Rectangle).WellFormed ∧
      1 ≤ resolve 8 (New none 3 : splitDrawer Unit Unit).n ∧
      ¬ ∃ cs, (New none 3 : splitDrawer Unit Unit).calls 8 ⟨⟨0, 0⟩, ⟨1, 2 ^ 62⟩⟩ ⟨0, 0⟩
          = some cs ∧
        ∀ p : Point, cs.countP (fun c => decide (p.In c.1))
          = if p.In ⟨⟨0, 0⟩, ⟨1, 2 ^ 62⟩⟩ then 1 else 0) ∧
    ((⟨⟨0, 0⟩, ⟨1, 2 ^ 31⟩⟩ : Rectangle).Valid ∧
      (⟨⟨0, 0⟩, ⟨1, 2 ^ 31⟩⟩ : Rectangle).WellFormed ∧
      1 ≤ resolve 8 (New none (2 ^ 31) : splitDrawer Unit Unit).n ∧
      min (resolve 8 (New none (2 ^ 31) : splitDrawer Unit Unit).n)
          (⟨⟨0, 0⟩, ⟨1, 2 ^ 31⟩⟩ : Rectangle).height
        * (⟨⟨0, 0⟩, ⟨1, 2 ^ 31⟩⟩ : Rectangle).height < 2 ^ 63 ∧
      (⟨0, 0⟩ : Point).In ⟨⟨0, 0⟩, ⟨1, 2 ^ 31⟩⟩ ∧
      (New none (2 ^ 31) : splitDrawer Unit Unit).calls 8 ⟨⟨0, 0⟩, ⟨1, 2 ^ 31⟩⟩ ⟨0, 0⟩
        = none ∧
      (New none (2 ^ 31) : splitDrawer Unit Unit).invocations 8 ⟨⟨0, 0⟩, ⟨1, 2 ^ 31⟩⟩ ⟨0, 0⟩
        = []) := by
  refine ⟨⟨by decide, by decide, by decide, ?_⟩, by decide⟩
  rintro ⟨cs, hcs, h⟩
  have e : ((New none 3 : splitDrawer Unit Unit).calls 8 ⟨⟨0, 0⟩, ⟨1, 2 ^ 62⟩⟩ ⟨0, 0⟩).map
      (fun l => l.countP (fun c => decide ((⟨0, 0⟩ : Point).In c.1))) = some 2 := by decide
  rw [hcs] at e
  simp only [Option.map_some', Option.some.injEq] at e
  have h0 := h ⟨0, 0⟩
  rw [e] at h0
  revert h0
  decide

/-- C7 (amended): for every band dispatched by `Draw` whose rows start at offset `y0`, the
source point passed to that band's compositing invocation is `(sp.X, sp.Y + y0)` (Go `int`
addition); and for a well-formed rectangle with `int` coordinates, a resolved worker count
`n ≥ 1`, `min(n, H) < 2^31` (the count fits the 32-bit counter of the wait group) and
`min(n, H) * H < 2^63` (no product overflows), `Draw` returns and (band source point) -
(band rectangle Min) equals `sp - r.Min` for every band. -/
theorem source_point_shifted {Img S : Type} (sd : splitDrawer Img S) (numCPU : Int)
    (r : Rectangle) (sp : Point) (hsp : sp.Valid) :
    sd.calls numCPU r sp = (sd.bands numCPU r).map (fun bs => bs.map fun y =>
        ((bandCall r sp y).1, (⟨sp.X, add sp.Y y.1⟩ : Point))) ∧
      sd.invocations numCPU r sp = (sd.dispatched numCPU r).map (fun y =>
        ((bandCall r sp y).1, (⟨sp.X, add sp.Y y.1⟩ : Point))) ∧
      (r.Valid → r.WellFormed → 1 ≤ resolve numCPU sd.n →
        min (resolve numCPU sd.n) r.height < 2 ^ 31 →
        min (resolve numCPU sd.n) r.height * r.height < 2 ^ 63 →
        ∃ cs, sd.calls numCPU r sp = some cs ∧
          ∀ c ∈ cs, c.2.Sub c.1.Min = sp.Sub r.Min) := by
  have hspX : add sp.X 0 = sp.X := by
    unfold add; rw [Int.add_zero]; exact wrap_eq hsp.1
  refine ⟨?_, ?_, ?_⟩
  · unfold splitDrawer.calls
    congr 1
    funext bs
    apply List.map_congr_left
    intro y _
    simp [bandCall, Point.Add, Pt, hspX]
  · unfold splitDrawer.invocations
    apply List.map_congr_left
    intro y _
    simp [bandCall, Point.Add, Pt, hspX]
  · intro hv hwf hn hcnt hfit
    have hH : 0 ≤ r.height := by unfold Rectangle.height; have := hwf.2; omega
    obtain ⟨bs, _, hcs, _, _, hrect⟩ := calls_spec sd numCPU r sp hv hwf.1 hH hn hcnt hfit
    refine ⟨_, hcs, ?_⟩
    intro c hc
    rw [List.mem_map] at hc
    obtain ⟨b, hb, rfl⟩ := hc
    rw [hrect b hb]
    have hspX2 : wrap (sp.X + 0) = sp.X := hspX
    simp only [bandCall, Point.Add, Pt, Point.Sub, sub, add]
    rw [wrap_sub_wrap_add, hspX2]

/-- Witness for C7: the rectangle `(2, 3)-(6, 10)` drawn by 3 workers from source offset
`(7, 1)`. -/
theorem source_point_shifted_witness :
    (⟨7, 1⟩ : Point).Valid ∧ (⟨⟨2, 3⟩, ⟨6, 10⟩⟩ : Rectangle).Valid ∧
      (⟨⟨2, 3⟩, ⟨6, 10⟩⟩ : Rectangle).WellFormed ∧
      1 ≤ resolve 8 (New none 3 : splitDrawer Unit Unit).n ∧
      min (resolve 8 (New none 3 : splitDrawer Unit Unit).n)
          (⟨⟨2, 3⟩, ⟨6, 10⟩⟩ : Rectangle).height < 2 ^ 31 ∧
      min (resolve 8 (New none 3 : splitDrawer Unit Unit).n)
          (⟨⟨2, 3⟩, ⟨6, 10⟩⟩ : Rectangle).height
        * (⟨⟨2, 3⟩, ⟨6, 10⟩⟩ : Rectangle).height < 2 ^ 63 ∧
      ∃ cs, (New none 3 : splitDrawer Unit Unit).calls 8 ⟨⟨2, 3⟩, ⟨6, 10⟩⟩ ⟨7, 1⟩ = some cs ∧
        ∀ c ∈ cs, c.2.Sub c.1.Min = (⟨7, 1⟩ : Point).Sub (⟨⟨2, 3⟩, ⟨6, 10⟩⟩ : Rectangle).Min :=
  ⟨by decide, by decide, by decide, by decide, by decide, by decide,
    (source_point_shifted (New none 3 : splitDrawer Unit Unit) 8 ⟨⟨2, 3⟩, ⟨6, 10⟩⟩ ⟨7, 1⟩
      (by decide)).2.2 (by decide) (by decide) (by decide) (by decide) (by decide)⟩

/-- C7 as stated fails: for the well-formed rectangle `(0, 0)-(1, 2^62)`, 3 workers and
source offset `(0, 0)` the products overflow, `image.Rect` swaps the rows of band 1, and its
source point minus its rectangle's `Min` is not `sp - r.Min`.  (For the rectangle
`(0, 0)-(1, 2^31)` and `2^31` workers `Draw` does not return: `wg.Add(2^31)` panics.) -/
theorem source_point_offset_on_overflow :
    ((⟨⟨0, 0⟩, ⟨1, 2 ^ 62⟩⟩ : Rectangle).Valid ∧
      (⟨⟨0, 0⟩, ⟨1, 2 ^ 62⟩⟩ : Rectangle).WellFormed ∧
      ¬ ∃ cs, (New none 3 : splitDrawer Unit Unit).calls 8 ⟨⟨0, 0⟩, ⟨1, 2 ^ 62⟩⟩ ⟨0, 0⟩
          = some cs ∧
        ∀ c ∈ cs, c.2.Sub c.1.Min
          = (⟨0, 0⟩ : Point).Sub (⟨⟨0, 0⟩, ⟨1, 2 ^ 62⟩⟩ : Rectangle).Min) ∧
    ((⟨⟨0, 0⟩, ⟨1, 2 ^ 31⟩⟩ : Rectangle).Valid ∧
      (⟨⟨0, 0⟩, ⟨1, 2 ^ 31⟩⟩ : Rectangle).WellFormed ∧
      min (resolve 8 (New none (2 ^ 31) : splitDrawer Unit Unit).n)
          (⟨⟨0, 0⟩, ⟨1, 2 ^ 31⟩⟩ : Rectangle).height
        * (⟨⟨0, 0⟩, ⟨1, 2 ^ 31⟩⟩ : Rectangle).height < 2 ^ 63 ∧
      (New none (2 ^ 31) : splitDrawer Unit Unit).calls 8 ⟨⟨0, 0⟩, ⟨1, 2 ^ 31⟩⟩ ⟨0, 0⟩
        = none) := by
  refine ⟨⟨by decide, by decide, ?_⟩, by decide⟩
  rintro ⟨cs, hcs, h⟩
  have e : (New none 3 : splitDrawer Unit Unit).calls 8 ⟨⟨0, 0⟩, ⟨1, 2 ^ 62⟩⟩ ⟨0, 0⟩
      = some [(⟨⟨0, 0⟩, ⟨1, 1537228672809129301⟩⟩, ⟨0, 0⟩),
          (⟨⟨0, -3074457345618258602⟩, ⟨1, 1537228672809129301⟩⟩, ⟨0, 1537228672809129301⟩),
          (⟨⟨0, -3074457345618258602⟩, ⟨1, -1537228672809129301⟩⟩,
            ⟨0, -3074457345618258602⟩)] := by decide
  rw [e] at hcs
  cases hcs
  have h1 := h (⟨⟨0, -3074457345618258602⟩, ⟨1, 1537228672809129301⟩⟩,
    ⟨0, 1537228672809129301⟩) (by simp)
  revert h1
  decide

/-- C8 (amended): for every destination rectangle `r` with `int` coordinates,
`Min.X ≤ Max.X` and height `H ≥ 0`, and every resolved worker count `n ≥ 1` with
`min(n, H) < 2^31` (the count fits the 32-bit counter of the wait group) and
`min(n, H) * H < 2^63` (no product overflows), `Draw` returns and the rectangle of the band
with row range `[y0, y1)` has `Min = (r.Min.X, r.Min.Y + y0)` and
`Max = (r.Max.X, r.Min.Y + y1)`: the x-extent is that of `r`. -/
theorem band_rectangle_geometry {Img S : Type} (sd : splitDrawer Img S) (numCPU : Int)
    (r : Rectangle) (sp : Point) (hv : r.Valid) (hx : r.Min.X ≤ r.Max.X) (hH : 0 ≤ r.height)
    (hn : 1 ≤ resolve numCPU sd.n)
    (hcnt : min (resolve numCPU sd.n) r.height < 2 ^ 31)
    (hfit : min (resolve numCPU sd.n) r.height * r.height < 2 ^ 63) :
    ∃ bs, sd.bands numCPU r = some bs ∧
      sd.calls numCPU r sp = some (bs.map fun y =>
        ((⟨⟨r.Min.X, r.Min.Y + y.1⟩, ⟨r.Max.X, r.Min.Y + y.2⟩⟩ : Rectangle),
          sp.Add (Pt 0 y.1))) := by
  obtain ⟨bs, hbs, hcs, _, _, hrect⟩ := calls_spec sd numCPU r sp hv hx hH hn hcnt hfit
  refine ⟨bs, hbs, ?_⟩
  rw [hcs]
  congr 1
  apply List.map_congr_left
  intro b hb
  rw [← hrect b hb]
  rfl

/-- Witness for C8: the rectangle `(2, 3)-(6, 10)` drawn by 3 workers. -/
theorem band_rectangle_geometry_witness :
    (⟨⟨2, 3⟩, ⟨6, 10⟩⟩ : Rectangle).Valid ∧
      (⟨⟨2, 3⟩, ⟨6, 10⟩⟩ : Rectangle).Min.X ≤ (⟨⟨2, 3⟩, ⟨6, 10⟩⟩ : Rectangle).Max.X ∧
      0 ≤ (⟨⟨2, 3⟩, ⟨6, 10⟩⟩ : Rectangle).height ∧
      1 ≤ resolve 8 (New none 3 : splitDrawer Unit Unit).n ∧
      min (resolve 8 (New none 3 : splitDrawer Unit Unit).n)
          (⟨⟨2, 3⟩, ⟨6, 10⟩⟩ : Rectangle).height < 2 ^ 31 ∧
      min (resolve 8 (New none 3 : splitDrawer Unit Unit).n)
          (⟨⟨2, 3⟩, ⟨6, 10⟩⟩ : Rectangle).height
        * (⟨⟨2, 3⟩, ⟨6, 10⟩⟩ : Rectangle).height < 2 ^ 63 ∧
      ∃ bs, (New none 3 : splitDrawer Unit Unit).bands 8 ⟨⟨2, 3⟩, ⟨6, 10⟩⟩ = some bs ∧
        (New none 3 : splitDrawer Unit Unit).calls 8 ⟨⟨2, 3⟩, ⟨6, 10⟩⟩ ⟨7, 1⟩
          = some (bs.map fun y =>
            ((⟨⟨2, 3 + y.1⟩, ⟨6, 3 + y.2⟩⟩ : Rectangle), (⟨7, 1⟩ : Point).Add (Pt 0 y.1))) :=
  ⟨by decide, by decide, by decide, by decide, by decide, by decide,
    band_rectangle_geometry (New none 3 : splitDrawer Unit Unit) 8 ⟨⟨2, 3⟩, ⟨6, 10⟩⟩ ⟨7, 1⟩
      (by decide) (by decide) (by decide) (by decide) (by decide) (by decide)⟩

/-- C8 as stated fails: for the rectangle with `Min = (5, 0)`, `Max = (2, 3)` and one worker,
the single band has rows `[0, 3)` but `image.Rect` swaps the x-coordinates, so the rectangle
passed to the compositing rule has `Min = (2, 0)` and not `(5, 0)`; for the rectangle
`(0, 0)-(1, 2^62)` and 3 workers the products overflow, band 1 has `y1 < y0`, and
`image.Rect` swaps its y-coordinates; and for the rectangle `(0, 0)-(1, 2^31)` and `2^31`
workers `wg.Add(2^31)` panics and `Draw` does not return. -/
theorem band_rectangle_x_swapped :
    (¬ ∃ bs, (New none 1 : splitDrawer Unit Unit).bands 8 ⟨⟨5, 0⟩, ⟨2, 3⟩⟩ = some bs ∧
      (New none 1 : splitDrawer Unit Unit).calls 8 ⟨⟨5, 0⟩, ⟨2, 3⟩⟩ ⟨0, 0⟩
        = some (bs.map fun y =>
          ((⟨⟨5, 0 + y.1⟩, ⟨2, 0 + y.2⟩⟩ : Rectangle), (⟨0, 0⟩ : Point).Add (Pt 0 y.1)))) ∧
    (¬ ∃ bs, (New none 3 : splitDrawer Unit Unit).bands 8 ⟨⟨0, 0⟩, ⟨1, 2 ^ 62⟩⟩ = some bs ∧
      (New none 3 : splitDrawer Unit Unit).calls 8 ⟨⟨0, 0⟩, ⟨1, 2 ^ 62⟩⟩ ⟨0, 0⟩
        = some (bs.map fun y =>
          ((⟨⟨0, 0 + y.1⟩, ⟨1, 0 + y.2⟩⟩ : Rectangle), (⟨0, 0⟩ : Point).Add (Pt 0 y.1)))) ∧
    ((⟨⟨0, 0⟩, ⟨1, 2 ^ 31⟩⟩ : Rectangle).Valid ∧
      min (resolve 8 (New none (2 ^ 31) : splitDrawer Unit Unit).n)
          (⟨⟨0, 0⟩, ⟨1, 2 ^ 31⟩⟩ : Rectangle).height
        * (⟨⟨0, 0⟩, ⟨1, 2 ^ 31⟩⟩ : Rectangle).height < 2 ^ 63 ∧
      (New none (2 ^ 31) : splitDrawer Unit Unit).bands 8 ⟨⟨0, 0⟩, ⟨1, 2 ^ 31⟩⟩ = none ∧
      (New none (2 ^ 31) : splitDrawer Unit Unit).calls 8 ⟨⟨0, 0⟩, ⟨1, 2 ^ 31⟩⟩ ⟨0, 0⟩
        = none) := by
  refine ⟨?_, ?_, by decide⟩
  · rintro ⟨bs, hbs, h⟩
    have e : (New none 1 : splitDrawer Unit Unit).bands 8 ⟨⟨5, 0⟩, ⟨2, 3⟩⟩
        = some [(0, 3)] := by decide
    rw [e] at hbs
    cases hbs
    revert h
    decide
  · rintro ⟨bs, hbs, h⟩
    have e : (New none 3 : splitDrawer Unit Unit).bands 8 ⟨⟨0, 0⟩, ⟨1, 2 ^ 62⟩⟩
        = some [(0, 1537228672809129301), (1537228672809129301, -3074457345618258602),
            (-3074457345618258602, -1537228672809129301)] := by decide
    rw [e] at hbs
    cases hbs
    revert h
    decide

/-- C9 (amended): for every compositing rule `d`, every destination rectangle `r` with `int`
coordinates, `Min.X ≤ Max.X` and height `1 ≤ H < 2^63`, and every source offset `sp`, `Draw`
on `New(d, 1)` makes exactly the single call `d.Draw(dst, r, src, sp)` and so leaves the
destination as that direct call does. -/
theorem single_worker_is_direct_call {Img S : Type} (d : Drawer Img S) (numCPU : Int)
    (drawSrc : Drawer Img S) (dst : Img) (r : Rectangle) (src : S) (sp : Point)
    (hv : r.Valid) (hsp : sp.Valid) (hx : r.Min.X ≤ r.Max.X) (hH : 1 ≤ r.height)
    (hlt : r.height < 2 ^ 63) :
    (New (some d) 1).calls numCPU r sp = some [(r, sp)] ∧
      (New (some d) 1).Draw numCPU drawSrc dst r src sp = some (d.Draw dst r src sp) := by
  have hres : resolve numCPU (New (some d) 1).n = 1 := by simp [resolve, New]
  have hmin : min (resolve numCPU (New (some d) 1).n) r.height = 1 := by rw [hres]; omega
  have hrows : rows r = r.height := rows_eq_height (by omega) hlt
  have hw : workers numCPU (New (some d) 1).n (rows r) = 1 := by
    rw [workers_eq_min, hrows]; exact hmin
  have hbs := bands_eq_floorCut (New (some d) 1) numCPU r (by omega) (by omega)
    (by rw [hw]; omega) (by rw [hw]; omega)
  rw [hw] at hbs
  have h1 : floorCut (rows r) 1 1 = r.height := by
    have := floorCut_top (H := rows r) (k := 1) (by omega)
    rw [hrows] at this ⊢
    exact this
  have hlist : (List.range (1 : Int).toNat).map
      (fun (i : Nat) => (floorCut (rows r) 1 i, floorCut (rows r) 1 (i + 1)))
      = [(0, r.height)] := by
    have : (1 : Int).toNat = 1 := rfl
    rw [this]
    simp [List.range_succ, floorCut_zero, h1]
  rw [hlist] at hbs
  obtain ⟨⟨_, hminY⟩, ⟨_, hmaxY⟩⟩ := hv
  have hcall : bandCall r sp (0, r.height) = (r, sp) := by
    have hr := bandCall_rect r sp (0, r.height) hx (by simpa using hminY)
      (by unfold Rectangle.height; simpa using hmaxY) (by simp; omega)
    have hp : (bandCall r sp (0, r.height)).2 = sp := by
      simp [bandCall, Point.Add, Pt, add, wrap_eq hsp.1, wrap_eq hsp.2]
    have hr2 : (bandCall r sp (0, r.height)).1 = r := by
      rw [hr]
      simp [Rectangle.height]
    exact Prod.ext hr2 hp
  have hcalls : (New (some d) 1).calls numCPU r sp = some [(r, sp)] := by
    simp [splitDrawer.calls, hbs, hcall]
  refine ⟨hcalls, ?_⟩
  unfold splitDrawer.Draw
  rw [hcalls]
  simp [splitDrawer.rule, New]

/-- Witness for C9: the rule that counts its invocations, on the rectangle `(2, 3)-(6, 10)`. -/
theorem single_worker_is_direct_call_witness :
    (⟨⟨2, 3⟩, ⟨6, 10⟩⟩ : Rectangle).Valid ∧ (⟨7, 1⟩ : Point).Valid ∧
      (⟨⟨2, 3⟩, ⟨6, 10⟩⟩ : Rectangle).Min.X ≤ (⟨⟨2, 3⟩, ⟨6, 10⟩⟩ : Rectangle).Max.X ∧
      1 ≤ (⟨⟨2, 3⟩, ⟨6, 10⟩⟩ : Rectangle).height ∧
      (⟨⟨2, 3⟩, ⟨6, 10⟩⟩ : Rectangle).height < 2 ^ 63 ∧
      (New (some (⟨fun img _ _ _ => img + 1⟩ : Drawer Nat Unit)) 1).calls 8
          ⟨⟨2, 3⟩, ⟨6, 10⟩⟩ ⟨7, 1⟩ = some [(⟨⟨2, 3⟩, ⟨6, 10⟩⟩, ⟨7, 1⟩)] ∧
      (New (some (⟨fun img _ _ _ => img + 1⟩ : Drawer Nat Unit)) 1).Draw 8
          ⟨fun img _ _ _ => img⟩ 0 ⟨⟨2, 3⟩, ⟨6, 10⟩⟩ () ⟨7, 1⟩
        = some ((⟨fun img _ _ _ => img + 1⟩ : Drawer Nat Unit).Draw 0
            ⟨⟨2, 3⟩, ⟨6, 10⟩⟩ () ⟨7, 1⟩) :=
  ⟨by decide, by decide, by decide, by decide, by decide,
    single_worker_is_direct_call (⟨fun img _ _ _ => img + 1⟩ : Drawer Nat Unit) 8
      ⟨fun img _ _ _ => img⟩ 0 ⟨⟨2, 3⟩, ⟨6, 10⟩⟩ () ⟨7, 1⟩
      (by decide) (by decide) (by decide) (by decide) (by decide)⟩

/-- C9 as stated fails: on the rectangle `(0, 0)-(3, 0)` of height 0, `Draw` on `New(d, 1)`
makes no call at all, while the direct call invokes `d` once; for the rule `d` that counts
its invocations the destinations differ.  On the rectangle with `Min = (5, 0)`,
`Max = (2, 3)` the single call is on the swapped rectangle `(2, 0)-(5, 3)`.  On the
rectangle `(0, -2^62)-(1, 2^62)`, whose height `2^63` is no `int`, `rows` wraps to `-2^63`,
`wg.Add(-2^63)` leaves the 32-bit counter at 0, and `Draw` returns without any call. -/
theorem single_worker_skips_empty_rectangle :
    ((New (some (⟨fun img _ _ _ => img + 1⟩ : Drawer Nat Unit)) 1).calls 8
        ⟨⟨0, 0⟩, ⟨3, 0⟩⟩ ⟨0, 0⟩ = some [] ∧
      (New (some (⟨fun img _ _ _ => img + 1⟩ : Drawer Nat Unit)) 1).calls 8
        ⟨⟨0, 0⟩, ⟨3, 0⟩⟩ ⟨0, 0⟩ ≠ some [(⟨⟨0, 0⟩, ⟨3, 0⟩⟩, ⟨0, 0⟩)] ∧
      (New (some (⟨fun img _ _ _ => img + 1⟩ : Drawer Nat Unit)) 1).Draw 8
          ⟨fun img _ _ _ => img⟩ 0 ⟨⟨0, 0⟩, ⟨3, 0⟩⟩ () ⟨0, 0⟩
        ≠ some ((⟨fun img _ _ _ => img + 1⟩ : Drawer Nat Unit).Draw 0
            ⟨⟨0, 0⟩, ⟨3, 0⟩⟩ () ⟨0, 0⟩)) ∧
    ((New (some (⟨fun img _ _ _ => img + 1⟩ : Drawer Nat Unit)) 1).calls 8
        ⟨⟨5, 0⟩, ⟨2, 3⟩⟩ ⟨0, 0⟩ = some [(⟨⟨2, 0⟩, ⟨5, 3⟩⟩, ⟨0, 0⟩)] ∧
      (New (some (⟨fun img _ _ _ => img + 1⟩ : Drawer Nat Unit)) 1).calls 8
        ⟨⟨5, 0⟩, ⟨2, 3⟩⟩ ⟨0, 0⟩ ≠ some [(⟨⟨5, 0⟩, ⟨2, 3⟩⟩, ⟨0, 0⟩)]) ∧
    ((⟨⟨0, -2 ^ 62⟩, ⟨1, 2 ^ 62⟩⟩ : Rectangle).Valid ∧
      1 ≤ (⟨⟨0, -2 ^ 62⟩, ⟨1, 2 ^ 62⟩⟩ : Rectangle).height ∧
      rows ⟨⟨0, -2 ^ 62⟩, ⟨1, 2 ^ 62⟩⟩ = -2 ^ 63 ∧
      wgAdd 0 (workers 8 (New (some (⟨fun img _ _ _ => img + 1⟩ : Drawer Nat Unit)) 1).n
        (rows ⟨⟨0, -2 ^ 62⟩, ⟨1, 2 ^ 62⟩⟩)) = 0 ∧
      (New (some (⟨fun img _ _ _ => img + 1⟩ : Drawer Nat Unit)) 1).calls 8
        ⟨⟨0, -2 ^ 62⟩, ⟨1, 2 ^ 62⟩⟩ ⟨0, 0⟩ = some [] ∧
      (New (some (⟨fun img _ _ _ => img + 1⟩ : Drawer Nat Unit)) 1).Draw 8
          ⟨fun img _ _ _ => img⟩ 0 ⟨⟨0, -2 ^ 62⟩, ⟨1, 2 ^ 62⟩⟩ () ⟨0, 0⟩
        ≠ some ((⟨fun img _ _ _ => img + 1⟩ : Drawer Nat Unit).Draw 0
            ⟨⟨0, -2 ^ 62⟩, ⟨1, 2 ^ 62⟩⟩ () ⟨0, 0⟩)) := by
  decide

/-- C10 (amended): for every height `H = rows r ≥ 0` and resolved worker count `n ≥ 1` with
`min(n, H) < 2^31` (the count fits the 32-bit counter of the wait group), `Draw` returns
having made exactly `min(n, H)` compositing invocations; in particular, when `n > H` these
are `H` bands of one row each, band `i` being row `i`. -/
theorem worker_count_clamp {Img S : Type} (sd : splitDrawer Img S) (numCPU : Int)
    (r : Rectangle) (sp : Point) (hn : 1 ≤ resolve numCPU sd.n) (hH : 0 ≤ rows r)
    (hcnt : min (resolve numCPU sd.n) (rows r) < 2 ^ 31) :
    (∃ cs, sd.calls numCPU r sp = some cs ∧
      (cs.length : Int) = min (resolve numCPU sd.n) (rows r)) ∧
    (rows r < resolve numCPU sd.n →
      sd.bands numCPU r
        = some ((List.range (rows r).toNat).map fun (i : Nat) => ((i : Int), (i : Int) + 1))) := by
  have hw : workers numCPU sd.n (rows r) = min (resolve numCPU sd.n) (rows r) := workers_eq_min
  have hcnt2 : workers numCPU sd.n (rows r) < 2 ^ 31 := by omega
  constructor
  · refine ⟨(launches (rows r) (workers numCPU sd.n (rows r))).map (bandCall r sp),
      by simp [splitDrawer.calls, bands_eq sd numCPU r hn hH hcnt2], ?_⟩
    rw [List.length_map, launches, List.length_map, List.length_range, hw]
    exact Int.toNat_of_nonneg (by omega)
  · intro hlt
    have hk : workers numCPU sd.n (rows r) = rows r := by omega
    have hfit : rows r * rows r < 2 ^ 63 := by
      have h31 : rows r < 2 ^ 31 := by omega
      nlinarith
    rw [bands_eq_floorCut sd numCPU r hn hH hcnt2 (by rw [hk]; exact hfit), hk]
    congr 1
    apply List.map_congr_left
    intro i hi
    rw [List.mem_range] at hi
    have hpos : rows r ≠ 0 := by omega
    simp only [floorCut, Prod.mk.injEq]
    constructor
    · exact Int.mul_ediv_cancel _ hpos
    · push_cast
      exact Int.mul_ediv_cancel _ hpos

/-- Witness for C10: height 3 and 5 workers give the three one-row bands. -/
theorem worker_count_clamp_witness :
    (1 : Int) ≤ resolve 8 (New none 5 : splitDrawer Unit Unit).n ∧
      0 ≤ rows ⟨⟨0, 0⟩, ⟨4, 3⟩⟩ ∧
      min (resolve 8 (New none 5 : splitDrawer Unit Unit).n) (rows ⟨⟨0, 0⟩, ⟨4, 3⟩⟩)
        < 2 ^ 31 ∧
      rows ⟨⟨0, 0⟩, ⟨4, 3⟩⟩ < resolve 8 (New none 5 : splitDrawer Unit Unit).n ∧
      (∃ cs, (New none 5 : splitDrawer Unit Unit).calls 8 ⟨⟨0, 0⟩, ⟨4, 3⟩⟩ ⟨0, 0⟩ = some cs ∧
        (cs.length : Int)
          = min (resolve 8 (New none 5 : splitDrawer Unit Unit).n) (rows ⟨⟨0, 0⟩, ⟨4, 3⟩⟩)) ∧
      (New none 5 : splitDrawer Unit Unit).bands 8 ⟨⟨0, 0⟩, ⟨4, 3⟩⟩
        = some ((List.range (rows ⟨⟨0, 0⟩, ⟨4, 3⟩⟩).toNat).map
            fun (i : Nat) => ((i : Int), (i : Int) + 1)) :=
  ⟨by decide, by decide, by decide, by decide,
    (worker_count_clamp (New none 5 : splitDrawer Unit Unit) 8 ⟨⟨0, 0⟩, ⟨4, 3⟩⟩ ⟨0, 0⟩
      (by decide) (by decide) (by decide)).1,
    (worker_count_clamp (New none 5 : splitDrawer Unit Unit) 8 ⟨⟨0, 0⟩, ⟨4, 3⟩⟩ ⟨0, 0⟩
      (by decide) (by decide) (by decide)).2 (by decide)⟩

/-- C10 as stated fails: for height `2^31` and `2^31` requested workers the clamped count is
`min(n, H) = 2^31`, `wg.Add(2^31)` panics on the 32-bit counter `-2^31` before the loop, and
`Draw` makes no compositing invocation instead of `2^31`. -/
theorem no_invocation_at_two_pow_31 :
    (1 : Int) ≤ resolve 8 (New none (2 ^ 31) : splitDrawer Unit Unit).n ∧
      0 ≤ rows ⟨⟨0, 0⟩, ⟨3, 2 ^ 31⟩⟩ ∧
      min (resolve 8 (New none (2 ^ 31) : splitDrawer Unit Unit).n)
        (rows ⟨⟨0, 0⟩, ⟨3, 2 ^ 31⟩⟩) = 2 ^ 31 ∧
      wgAdd 0 (workers 8 (New none (2 ^ 31) : splitDrawer Unit Unit).n
        (rows ⟨⟨0, 0⟩, ⟨3, 2 ^ 31⟩⟩)) = -2 ^ 31 ∧
      (New none (2 ^ 31) : splitDrawer Unit Unit).invocations 8 ⟨⟨0, 0⟩, ⟨3, 2 ^ 31⟩⟩ ⟨0, 0⟩
        = [] ∧
      ¬ ∃ cs, (New none (2 ^ 31) : splitDrawer Unit Unit).calls 8
          ⟨⟨0, 0⟩, ⟨3, 2 ^ 31⟩⟩ ⟨0, 0⟩ = some cs ∧
        (cs.length : Int) = min (resolve 8 (New none (2 ^ 31) : splitDrawer Unit Unit).n)
          (rows ⟨⟨0, 0⟩, ⟨3, 2 ^ 31⟩⟩) := by
  refine ⟨by decide, by decide, by decide, by decide, by decide, ?_⟩
  rintro ⟨cs, hcs, _⟩
  have e : (New none (2 ^ 31) : splitDrawer Unit Unit).calls 8
      ⟨⟨0, 0⟩, ⟨3, 2 ^ 31⟩⟩ ⟨0, 0⟩ = none := by decide
  rw [e] at hcs
  cases hcs

/-! ## Band sizes -/

theorem ceilDiv_bounds {H k : Int} (hk : 1 ≤ k) :
    H ≤ ceilDiv H k * k ∧ ceilDiv H k * k ≤ H + k - 1 := by
  unfold ceilDiv
  have h1 := Int.lt_ediv_add_one_mul_self (H + k - 1) (by omega : 0 < k)
  have h2 := Int.ediv_mul_le (H + k - 1) (by omega : k ≠ 0)
  constructor
  · nlinarith
  · exact h2

theorem floor_le_ceilDiv {H k : Int} (hk : 1 ≤ k) :
    H / k ≤ ceilDiv H k ∧ ceilDiv H k ≤ H / k + 1 := by
  obtain ⟨c1, c2⟩ := ceilDiv_bounds (H := H) hk
  have f1 := Int.lt_ediv_add_one_mul_self H (by omega : 0 < k)
  have f2 := Int.ediv_mul_le H (by omega : k ≠ 0)
  constructor
  · by_contra hlt
    have : ceilDiv H k + 1 ≤ H / k := by omega
    nlinarith
  · by_contra hlt
    have : H / k + 2 ≤ ceilDiv H k := by omega
    nlinarith

/-- Every exact band has at least `floor(H / k)` and at most `ceil(H / k)` rows. -/
theorem floorCut_step {H k : Int} (hk : 1 ≤ k) (i : Nat) :
    floorCut H k i + H / k ≤ floorCut H k (i + 1) ∧
      floorCut H k (i + 1) ≤ floorCut H k i + ceilDiv H k := by
  unfold floorCut
  have hk0 : (0 : Int) < k := by omega
  have hk1 : k ≠ 0 := by omega
  have e : (((i + 1 : Nat) : Int)) * H = (i : Int) * H + H := by push_cast; ring
  rw [e]
  constructor
  · rw [Int.le_ediv_iff_mul_le hk0]
    have h1 := Int.ediv_mul_le ((i : Int) * H) hk1
    have h2 := Int.ediv_mul_le H hk1
    nlinarith
  · have hc := (ceilDiv_bounds (H := H) hk).1
    calc ((i : Int) * H + H) / k ≤ ((i : Int) * H + ceilDiv H k * k) / k :=
          Int.ediv_le_ediv hk0 (by omega)
      _ = (i : Int) * H / k + ceilDiv H k := Int.add_mul_ediv_right _ _ hk1

theorem floorCut_one {H k : Int} : floorCut H k 1 = H / k := by
  simp [floorCut]

/-- The last exact band has `ceil(H / k)` rows. -/
theorem floorCut_pred_top {H k : Int} (hk : 1 ≤ k) :
    floorCut H k (k.toNat - 1) = H - ceilDiv H k := by
  unfold floorCut
  have hk0 : (0 : Int) < k := by omega
  have hk1 : k ≠ 0 := by omega
  have hcast : ((k.toNat - 1 : Nat) : Int) = k - 1 := by omega
  rw [hcast]
  have e : (k - 1) * H = -H + H * k := by ring
  rw [e, Int.add_mul_ediv_right _ _ hk1]
  obtain ⟨c1, c2⟩ := ceilDiv_bounds (H := H) hk
  have hq : -H / k = -ceilDiv H k := by
    apply le_antisymm
    · have : -H / k < -ceilDiv H k + 1 := by
        rw [Int.ediv_lt_iff_lt_mul hk0]
        nlinarith
      omega
    · rw [Int.le_ediv_iff_mul_le hk0]
      nlinarith
  rw [hq]
  ring

/-- Without overflow every band of `Draw` has between `floor(H / k)` and `ceil(H / k)` rows,
the first band has `floor(H / k)` rows and the last band `ceil(H / k)` rows, where `H = rows r`
and `k` is the clamped worker count. -/
theorem bands_sizes {Img S : Type} (sd : splitDrawer Img S) (numCPU : Int) (r : Rectangle)
    (hn : 1 ≤ resolve numCPU sd.n) (hH : 1 ≤ rows r)
    (hcnt : workers numCPU sd.n (rows r) < 2 ^ 31)
    (hfit : workers numCPU sd.n (rows r) * rows r < 2 ^ 63) :
    ∃ bs, sd.bands numCPU r = some bs ∧
      bs.length = (workers numCPU sd.n (rows r)).toNat ∧
      (∀ b ∈ bs, rows r / workers numCPU sd.n (rows r) ≤ bandSize b ∧
        bandSize b ≤ ceilDiv (rows r) (workers numCPU sd.n (rows r))) ∧
      bs[0]?.map bandSize = some (rows r / workers numCPU sd.n (rows r)) ∧
      bs[bs.length - 1]?.map bandSize
        = some (ceilDiv (rows r) (workers numCPU sd.n (rows r))) := by
  have hw : workers numCPU sd.n (rows r) = min (resolve numCPU sd.n) (rows r) := workers_eq_min
  have hk : 1 ≤ workers numCPU sd.n (rows r) := by omega
  have hpos : 0 < (workers numCPU sd.n (rows r)).toNat := by omega
  refine ⟨_, bands_eq_floorCut sd numCPU r hn (by omega) hcnt hfit, by simp, ?_, ?_, ?_⟩
  · intro b hb
    rw [List.mem_map] at hb
    obtain ⟨i, _, rfl⟩ := hb
    have := floorCut_step (H := rows r) hk i
    simp only [bandSize]
    omega
  · rw [chain_getElem?, if_pos hpos]
    simp [bandSize, floorCut_zero, floorCut_one]
  · rw [List.length_map, List.length_range, chain_getElem?, if_pos (by omega)]
    have e : (workers numCPU sd.n (rows r)).toNat - 1 + 1
        = (workers numCPU sd.n (rows r)).toNat := by omega
    simp only [Option.map_some', bandSize, e, floorCut_top hk, floorCut_pred_top hk]
    congr 1
    ring

/-- A traversal whose every step succeeds is a map. -/
theorem mapM_eq_some_map {α β : Type} (f : α → Option β) (g : α → β) (l : List α)
    (h : ∀ x ∈ l, f x = some (g x)) : l.mapM f = some (l.map g) := by
  induction l with
  | nil => rfl
  | cons x xs ih =>
    have hx := h x (List.mem_cons_self x xs)
    have hxs := ih (fun y hy => h y (List.mem_cons_of_mem x hy))
    rw [List.mapM_cons, hx, hxs]
    rfl

/-- No iteration of the loop divides by zero: the checked loop computes `launches`. -/
theorem launchesChecked_eq (H n : Int) : launchesChecked H n = some (launches H n) := by
  unfold launchesChecked launches
  apply mapM_eq_some_map
  intro i hi
  rw [List.mem_range] at hi
  have hn : n ≠ 0 := by omega
  simp [launchChecked, quoChecked, hn, quo]

theorem bandsChecked_eq {Img S : Type} (sd : splitDrawer Img S) (numCPU : Int)
    (r : Rectangle) : sd.bandsChecked numCPU r = sd.bands numCPU r := by
  unfold splitDrawer.bandsChecked splitDrawer.bands
  simp only [launchesChecked_eq]

/-! ## Claims, continued -/

/-- C11 (amended): for every height `H = rows r` and resolved worker count `n ≥ 1`, provided
`min(n, H) * H < 2^63` when `H ≥ 0` (no product overflows), every band that `Draw`
dispatches covers at least one row (`y1 - y0 ≥ 1`). -/
theorem no_empty_band {Img S : Type} (sd : splitDrawer Img S) (numCPU : Int) (r : Rectangle)
    (hn : 1 ≤ resolve numCPU sd.n)
    (hfit : 0 ≤ rows r → min (resolve numCPU sd.n) (rows r) * rows r < 2 ^ 63) :
    ∀ b ∈ sd.dispatched numCPU r, 1 ≤ bandSize b := by
  have hw : workers numCPU sd.n (rows r) = min (resolve numCPU sd.n) (rows r) := workers_eq_min
  intro b hb
  unfold splitDrawer.dispatched at hb
  simp only [] at hb
  split at hb
  · simp at hb
  · rcases Int.lt_or_le (rows r) 1 with hlt | hge
    · have hz : (workers numCPU sd.n (rows r)).toNat = 0 := by omega
      simp [launches, hz] at hb
    · have hfit2 : workers numCPU sd.n (rows r) * rows r < 2 ^ 63 := by
        rw [hw]; exact hfit (by omega)
      have hk : 1 ≤ workers numCPU sd.n (rows r) := by omega
      rw [launches_eq_floorCut hk (by omega) hfit2, List.mem_map] at hb
      obtain ⟨i, _, rfl⟩ := hb
      have h1 := (floorCut_step (H := rows r) hk i).1
      have hq : 1 ≤ rows r / workers numCPU sd.n (rows r) := by
        rw [Int.le_ediv_iff_mul_le (by omega)]
        omega
      simp only [bandSize]
      omega

/-- Witness for C11: height 7 drawn by 4 workers; four bands, none empty. -/
theorem no_empty_band_witness :
    (1 : Int) ≤ resolve 8 (New none 4 : splitDrawer Unit Unit).n ∧
      (0 ≤ rows ⟨⟨0, 0⟩, ⟨9, 7⟩⟩ →
        min (resolve 8 (New none 4 : splitDrawer Unit Unit).n) (rows ⟨⟨0, 0⟩, ⟨9, 7⟩⟩)
          * rows ⟨⟨0, 0⟩, ⟨9, 7⟩⟩ < 2 ^ 63) ∧
      ((New none 4 : splitDrawer Unit Unit).dispatched 8 ⟨⟨0, 0⟩, ⟨9, 7⟩⟩).length = 4 ∧
      ∀ b ∈ (New none 4 : splitDrawer Unit Unit).dispatched 8 ⟨⟨0, 0⟩, ⟨9, 7⟩⟩,
        1 ≤ bandSize b :=
  ⟨by decide, by decide, by decide,
    no_empty_band (New none 4 : splitDrawer Unit Unit) 8 ⟨⟨0, 0⟩, ⟨9, 7⟩⟩
      (by decide) (by decide)⟩

/-- C11 as stated fails: for height `2^62` and 3 workers the product `2 * rows` overflows
and band 1, with `y0 = 1537228672809129301` and `y1 = -3074457345618258602`, covers no
row. -/
theorem empty_band_on_overflow :
    (1 : Int) ≤ resolve 8 (New none 3 : splitDrawer Unit Unit).n ∧
      (New none 3 : splitDrawer Unit Unit).dispatched 8 ⟨⟨0, 0⟩, ⟨1, 2 ^ 62⟩⟩
        = [(0, 1537228672809129301), (1537228672809129301, -3074457345618258602),
            (-3074457345618258602, -1537228672809129301)] ∧
      ¬ ∀ b ∈ (New none 3 : splitDrawer Unit Unit).dispatched 8 ⟨⟨0, 0⟩, ⟨1, 2 ^ 62⟩⟩,
        1 ≤ bandSize b := by
  decide

/-- C12 (amended): for every configured worker count `n ≥ 0` (`0` resolved to a hardware
count `c ≥ 1`) and every destination rectangle whose height `rows r`, as `Draw` computes it,
is non-negative, provided the clamped count `min(n, rows)` is below `2^31`, the count handed
to `wg.Add` is non-negative and is registered as it is by the 32-bit counter, no division by
zero occurs, and `Draw` returns normally (the compositing rule being total). -/
theorem draw_returns {Img S : Type} (sd : splitDrawer Img S) (numCPU : Int)
    (drawSrc : Drawer Img S) (dst : Img) (r : Rectangle) (src : S) (sp : Point)
    (hc : 1 ≤ numCPU) (hn : 0 ≤ sd.n) (hH : 0 ≤ rows r)
    (hcnt : min (resolve numCPU sd.n) (rows r) < 2 ^ 31) :
    0 ≤ workers numCPU sd.n (rows r) ∧
      wgAdd 0 (workers numCPU sd.n (rows r)) = workers numCPU sd.n (rows r) ∧
      fate (workers numCPU sd.n (rows r)) = Fate.returns ∧
      (sd.bandsChecked numCPU r).isSome = true ∧
      (sd.Draw numCPU drawSrc dst r src sp).isSome = true := by
  have hres := resolve_pos hc hn
  have hw : workers numCPU sd.n (rows r) = min (resolve numCPU sd.n) (rows r) := workers_eq_min
  have h0 : 0 ≤ workers numCPU sd.n (rows r) := by omega
  have hcnt2 : workers numCPU sd.n (rows r) < 2 ^ 31 := by omega
  have hb := bands_eq sd numCPU r hres hH hcnt2
  refine ⟨h0, ?_, fate_returns h0 hcnt2, ?_, ?_⟩
  · unfold wgAdd
    rw [Int.zero_add]
    exact wrap32_eq (by omega) hcnt2
  · rw [bandsChecked_eq, hb]
    rfl
  · simp [splitDrawer.Draw, splitDrawer.calls, hb]

/-- Witness for C12: the package default `D` on a rectangle of height 10 with 8 CPUs. -/
theorem draw_returns_witness :
    (1 : Int) ≤ 8 ∧ 0 ≤ (D : splitDrawer Nat Unit).n ∧ 0 ≤ rows ⟨⟨0, 0⟩, ⟨4, 10⟩⟩ ∧
      min (resolve 8 (D : splitDrawer Nat Unit).n) (rows ⟨⟨0, 0⟩, ⟨4, 10⟩⟩) < 2 ^ 31 ∧
      0 ≤ workers 8 (D : splitDrawer Nat Unit).n (rows ⟨⟨0, 0⟩, ⟨4, 10⟩⟩) ∧
      wgAdd 0 (workers 8 (D : splitDrawer Nat Unit).n (rows ⟨⟨0, 0⟩, ⟨4, 10⟩⟩))
        = workers 8 (D : splitDrawer Nat Unit).n (rows ⟨⟨0, 0⟩, ⟨4, 10⟩⟩) ∧
      fate (workers 8 (D : splitDrawer Nat Unit).n (rows ⟨⟨0, 0⟩, ⟨4, 10⟩⟩))
        = Fate.returns ∧
      ((D : splitDrawer Nat Unit).bandsChecked 8 ⟨⟨0, 0⟩, ⟨4, 10⟩⟩).isSome = true ∧
      ((D : splitDrawer Nat Unit).Draw 8 ⟨fun img _ _ _ => img + 1⟩ 0
        ⟨⟨0, 0⟩, ⟨4, 10⟩⟩ () ⟨0, 0⟩).isSome = true :=
  ⟨by decide, by decide, by decide, by decide,
    draw_returns (D : splitDrawer Nat Unit) 8 ⟨fun img _ _ _ => img + 1⟩ 0
      ⟨⟨0, 0⟩, ⟨4, 10⟩⟩ () ⟨0, 0⟩ (by decide) (by decide) (by decide) (by decide)⟩

/-- C12 as stated fails: with the configured worker count `-1` and a rectangle of height 5
the clamp leaves `n = -1`, the count handed to `wg.Add` is negative, and `Draw` panics.
Also, with the configured worker count `2^31` and a rectangle of height `2^31` the count
handed to `wg.Add` is `2^31`, the 32-bit counter becomes `-2^31`, and `Draw` panics. -/
theorem negative_worker_count_panics :
    ((0 : Int) ≤ rows ⟨⟨0, 0⟩, ⟨4, 5⟩⟩ ∧
      workers 8 (New none (-1) : splitDrawer Nat Unit).n (rows ⟨⟨0, 0⟩, ⟨4, 5⟩⟩) = -1 ∧
      fate (workers 8 (New none (-1) : splitDrawer Nat Unit).n (rows ⟨⟨0, 0⟩, ⟨4, 5⟩⟩))
        = Fate.addPanics ∧
      (New none (-1) : splitDrawer Nat Unit).Draw 8 ⟨fun img _ _ _ => img + 1⟩ 0
        ⟨⟨0, 0⟩, ⟨4, 5⟩⟩ () ⟨0, 0⟩ = none) ∧
    ((0 : Int) ≤ (New none (2 ^ 31) : splitDrawer Nat Unit).n ∧
      0 ≤ rows ⟨⟨0, 0⟩, ⟨4, 2 ^ 31⟩⟩ ∧
      workers 8 (New none (2 ^ 31) : splitDrawer Nat Unit).n (rows ⟨⟨0, 0⟩, ⟨4, 2 ^ 31⟩⟩)
        = 2 ^ 31 ∧
      wgAdd 0 (workers 8 (New none (2 ^ 31) : splitDrawer Nat Unit).n
        (rows ⟨⟨0, 0⟩, ⟨4, 2 ^ 31⟩⟩)) = -2 ^ 31 ∧
      fate (workers 8 (New none (2 ^ 31) : splitDrawer Nat Unit).n
        (rows ⟨⟨0, 0⟩, ⟨4, 2 ^ 31⟩⟩)) = Fate.addPanics ∧
      (New none (2 ^ 31) : splitDrawer Nat Unit).Draw 8 ⟨fun img _ _ _ => img + 1⟩ 0
        ⟨⟨0, 0⟩, ⟨4, 2 ^ 31⟩⟩ () ⟨0, 0⟩ = none) := by
  decide

/-- C13 (amended): for every height `H = rows r ≥ 1` and resolved worker count `n` with
`1 ≤ n ≤ H`, `n < 2^31` (the count fits the 32-bit counter of the wait group) and
`n * H < 2^63` (no product overflows), `Draw` returns, the first band is a smallest band
and the last band is a largest band: `size(0) ≤ size(i) ≤ size(n-1)` for every band `i`.
The sizes in between need not be monotone. -/
theorem first_band_smallest_last_largest {Img S : Type} (sd : splitDrawer Img S)
    (numCPU : Int) (r : Rectangle) (hn : 1 ≤ resolve numCPU sd.n)
    (hnH : resolve numCPU sd.n ≤ rows r) (hcnt : resolve numCPU sd.n < 2 ^ 31)
    (hfit : resolve numCPU sd.n * rows r < 2 ^ 63) :
    ∃ bs first last, sd.bands numCPU r = some bs ∧
      bs[0]? = some first ∧ bs[bs.length - 1]? = some last ∧
      ∀ b ∈ bs, bandSize first ≤ bandSize b ∧ bandSize b ≤ bandSize last := by
  have hw : workers numCPU sd.n (rows r) = resolve numCPU sd.n := by
    rw [workers_eq_min]; omega
  obtain ⟨bs, hbs, hlen, hsize, hfirst, hlast⟩ :=
    bands_sizes sd numCPU r hn (by omega) (by rw [hw]; exact hcnt) (by rw [hw]; exact hfit)
  cases h0 : bs[0]? with
  | none => simp [h0] at hfirst
  | some first =>
    cases h1 : bs[bs.length - 1]? with
    | none => simp [h1] at hlast
    | some last =>
      simp only [h0, h1, Option.map_some', Option.some.injEq] at hfirst hlast
      refine ⟨bs, first, last, hbs, h0, h1, ?_⟩
      intro b hb
      have := hsize b hb
      omega

/-- Witness for C13: height 8 drawn by 5 workers; the first band has 1 row, the last 2. -/
theorem first_band_smallest_last_largest_witness :
    (1 : Int) ≤ resolve 8 (New none 5 : splitDrawer Unit Unit).n ∧
      resolve 8 (New none 5 : splitDrawer Unit Unit).n ≤ rows ⟨⟨0, 0⟩, ⟨3, 8⟩⟩ ∧
      resolve 8 (New none 5 : splitDrawer Unit Unit).n < 2 ^ 31 ∧
      resolve 8 (New none 5 : splitDrawer Unit Unit).n * rows ⟨⟨0, 0⟩, ⟨3, 8⟩⟩ < 2 ^ 63 ∧
      ∃ bs first last, (New none 5 : splitDrawer Unit Unit).bands 8 ⟨⟨0, 0⟩, ⟨3, 8⟩⟩ = some bs ∧
        bs[0]? = some first ∧ bs[bs.length - 1]? = some last ∧
        ∀ b ∈ bs, bandSize first ≤ bandSize b ∧ bandSize b ≤ bandSize last :=
  ⟨by decide, by decide, by decide, by decide,
    first_band_smallest_last_largest (New none 5 : splitDrawer Unit Unit) 8
      ⟨⟨0, 0⟩, ⟨3, 8⟩⟩ (by decide) (by decide) (by decide) (by decide)⟩

/-- C13 as stated fails: height 8 drawn by 5 workers gives the band sizes `[1, 2, 1, 2, 2]`;
band 1 has 2 rows and band 2 has 1 row, so the sizes decrease from band 1 to band 2.  Also,
height `2^62` drawn by 3 workers overflows and gives the sizes `[a, -3a, a]` with
`a = 1537228672809129301`, and height `2^31` drawn by `2^31` workers makes `wg.Add(2^31)`
panic, so that there is no band. -/
theorem band_sizes_not_monotone :
    ((1 : Int) ≤ resolve 8 (New none 5 : splitDrawer Unit Unit).n ∧
      resolve 8 (New none 5 : splitDrawer Unit Unit).n ≤ rows ⟨⟨0, 0⟩, ⟨3, 8⟩⟩ ∧
      ((New none 5 : splitDrawer Unit Unit).bands 8 ⟨⟨0, 0⟩, ⟨3, 8⟩⟩).map (List.map bandSize)
        = some [1, 2, 1, 2, 2] ∧
      ¬ ∀ (i : Nat) (a b : Int), ([1, 2, 1, 2, 2] : List Int)[i]? = some a →
        ([1, 2, 1, 2, 2] : List Int)[i + 1]? = some b → a ≤ b) ∧
    ((1 : Int) ≤ resolve 8 (New none 3 : splitDrawer Unit Unit).n ∧
      resolve 8 (New none 3 : splitDrawer Unit Unit).n ≤ rows ⟨⟨0, 0⟩, ⟨3, 2 ^ 62⟩⟩ ∧
      ((New none 3 : splitDrawer Unit Unit).bands 8 ⟨⟨0, 0⟩, ⟨3, 2 ^ 62⟩⟩).map
          (List.map bandSize)
        = some [1537228672809129301, -4611686018427387903, 1537228672809129301]) ∧
    ((1 : Int) ≤ resolve 8 (New none (2 ^ 31) : splitDrawer Unit Unit).n ∧
      resolve 8 (New none (2 ^ 31) : splitDrawer Unit Unit).n ≤ rows ⟨⟨0, 0⟩, ⟨3, 2 ^ 31⟩⟩ ∧
      resolve 8 (New none (2 ^ 31) : splitDrawer Unit Unit).n * rows ⟨⟨0, 0⟩, ⟨3, 2 ^ 31⟩⟩
        < 2 ^ 63 ∧
      (New none (2 ^ 31) : splitDrawer Unit Unit).bands 8 ⟨⟨0, 0⟩, ⟨3, 2 ^ 31⟩⟩ = none ∧
      (New none (2 ^ 31) : splitDrawer Unit Unit).dispatched 8 ⟨⟨0, 0⟩, ⟨3, 2 ^ 31⟩⟩ = []) := by
  refine ⟨⟨by decide, by decide, by decide, ?_⟩, by decide, by decide⟩
  intro h
  have h1 := h 1 2 1 (by decide) (by decide)
  omega

/-- C14: with hardware parallelism `c ≥ 1`, `Draw` on a drawer configured with worker count 0
makes exactly the same compositing invocations, and leaves the same destination, as `Draw` on
a drawer configured with worker count `c`; a drawer configured with a nil rule uses
`draw.Src`; and the package default `D` is `New(nil, 0)`. -/
theorem default_resolution {Img S : Type} (d : Option (Drawer Img S)) (c n : Int)
    (drawSrc : Drawer Img S) (dst : Img) (r : Rectangle) (src : S) (sp : Point)
    (hc : 1 ≤ c) :
    (New d 0).calls c r sp = (New d c).calls c r sp ∧
      (New d 0).Draw c drawSrc dst r src sp = (New d c).Draw c drawSrc dst r src sp ∧
      (New none n).rule drawSrc = drawSrc ∧
      (New none n).Draw c drawSrc dst r src sp
        = (New (some drawSrc) n).Draw c drawSrc dst r src sp ∧
      (D : splitDrawer Img S) = New none 0 ∧
      (D : splitDrawer Img S).Draw c drawSrc dst r src sp
        = (New none 0).Draw c drawSrc dst r src sp := by
  have hc0 : c ≠ 0 := by omega
  have hres : resolve c (New d 0).n = resolve c (New d c).n := by
    simp [resolve, New]
  have hcalls : (New d 0).calls c r sp = (New d c).calls c r sp := by
    simp only [splitDrawer.calls, splitDrawer.bands, workers, hres]
  refine ⟨hcalls, ?_, rfl, rfl, rfl, rfl⟩
  simp only [splitDrawer.Draw, hcalls]
  rfl

/-- Witness for C14: 4 CPUs, a rectangle of height 10. -/
theorem default_resolution_witness :
    (1 : Int) ≤ 4 ∧
      (New none 0 : splitDrawer Nat Unit).calls 4 ⟨⟨0, 0⟩, ⟨3, 10⟩⟩ ⟨0, 0⟩
        = (New none 4 : splitDrawer Nat Unit).calls 4 ⟨⟨0, 0⟩, ⟨3, 10⟩⟩ ⟨0, 0⟩ ∧
      ((New none 0 : splitDrawer Nat Unit).calls 4 ⟨⟨0, 0⟩, ⟨3, 10⟩⟩ ⟨0, 0⟩).map List.length
        = some 4 :=
  ⟨by decide,
    (default_resolution (none : Option (Drawer Nat Unit)) 4 0 ⟨fun img _ _ _ => img⟩ 0
      ⟨⟨0, 0⟩, ⟨3, 10⟩⟩ () ⟨0, 0⟩ (by decide)).1,
    by decide⟩

/-! ## The wait group protocol -/

theorem wgAdd_zero {n : Int} (hn : 0 ≤ n) (h31 : n < 2 ^ 31) : wgAdd 0 n = n := by
  unfold wgAdd
  rw [Int.zero_add]
  exact wrap32_eq (by omega) h31

theorem wgAdd_done {c : Int} (h1 : 1 ≤ c) (h31 : c < 2 ^ 31) : wgAdd c (-1) = c - 1 := by
  unfold wgAdd
  exact wrap32_eq (by omega) (by omega)

theorem Sched.start_inv {n : Int} (hn : 0 ≤ n) (h31 : n < 2 ^ 31) : (Sched.start n).Inv n := by
  have : ¬ n < 0 := by omega
  simp [Sched.start, Sched.Inv, wgAdd_zero hn h31, this, hn]
  omega

theorem Sched.start_fuel {n : Int} (hn : 0 ≤ n) (h31 : n < 2 ^ 31) :
    (Sched.start n).fuel n = 2 * n.toNat + 2 := by
  have : ¬ n < 0 := by omega
  simp [Sched.start, Sched.fuel, wgAdd_zero hn h31, this]
  omega

/-- Every step keeps the invariant and uses up one unit of fuel. -/
theorem Sched.step_inv {n : Int} {s t : Sched} {e : Event} (hinv : s.Inv n)
    (h : s.step n e = some t) : t.Inv n ∧ t.fuel n + 1 = s.fuel n := by
  obtain ⟨hn, hp, hc, hfl, hln, hloop, hret⟩ := hinv
  cases e with
  | main =>
    cases hph : s.phase with
    | looping =>
      simp only [Sched.step, hph] at h
      split at h
      · rename_i hlt
        cases h
        refine ⟨⟨hn, by simp [hph], hc, by simp; omega, by simp; omega, by simp [hph], by simp [hph]⟩, ?_⟩
        simp [Sched.fuel, hph]
        omega
      · rename_i hge
        cases h
        refine ⟨⟨hn, by simp, hc, hfl, hln, by intro _; simp; omega, by simp⟩, ?_⟩
        simp [Sched.fuel, hph]
    | waiting =>
      simp only [Sched.step, hph] at h
      split at h
      · rename_i hz
        cases h
        have hl := hloop (by simp [hph])
        refine ⟨⟨hn, by simp, hc, hfl, hln, by intro _; exact hl, by intro _; exact hz⟩, ?_⟩
        simp [Sched.fuel, hph]
      · cases h
    | returned => simp [Sched.step, hph] at h
    | panicked => exact absurd hph hp
  | worker =>
    simp only [Sched.step, hp, if_false] at h
    split at h
    · rename_i hlt
      have hd : wgAdd s.counter (-1) = s.counter - 1 := wgAdd_done (by omega) (by omega)
      have hpos : ¬ s.counter - 1 < 0 := by omega
      simp only [hd, hpos, if_false] at h
      cases h
      refine ⟨⟨hn, hp, by simp; omega, by simp; omega, hln, hloop, ?_⟩, ?_⟩
      · intro hr
        have hr2 : s.phase = Phase.returned := hr
        have h0 := hret hr2
        have hl := hloop (by rw [hr2]; decide)
        simp only
        omega
      · simp only [Sched.fuel]
        omega
    · cases h

theorem Sched.run_inv {n : Int} (es : List Event) {s t : Sched} (hinv : s.Inv n)
    (h : Sched.run n s es = some t) : t.Inv n ∧ es.length + t.fuel n = s.fuel n := by
  induction es generalizing s with
  | nil =>
    simp only [Sched.run, Option.some.injEq] at h
    subst h
    exact ⟨hinv, by simp⟩
  | cons e es ih =>
    simp only [Sched.run] at h
    cases hst : s.step n e with
    | none => simp [hst] at h
    | some u =>
      simp only [hst] at h
      obtain ⟨hu, hfu⟩ := Sched.step_inv hinv hst
      obtain ⟨ht, hft⟩ := ih hu h
      refine ⟨ht, ?_⟩
      simp only [List.length_cons]
      omega

/-- In a state that satisfies the invariant and has not returned, some goroutine can run. -/
theorem Sched.progress {n : Int} {s : Sched} (hinv : s.Inv n) (hr : s.phase ≠ Phase.returned) :
    ∃ e t, s.step n e = some t := by
  obtain ⟨hn, hp, hc, hfl, hln, hloop, hret⟩ := hinv
  cases hph : s.phase with
  | looping =>
    refine ⟨Event.main, ?_⟩
    simp only [Sched.step, hph]
    split <;> exact ⟨_, rfl⟩
  | waiting =>
    have hl := hloop (by simp [hph])
    by_cases hz : s.counter = 0
    · refine ⟨Event.main, { s with phase := Phase.returned }, ?_⟩
      simp [Sched.step, hph, hz]
    · have hlt : s.finished < s.launched := by omega
      have hd : wgAdd s.counter (-1) = s.counter - 1 := wgAdd_done (by omega) (by omega)
      have hpos : ¬ s.counter - 1 < 0 := by omega
      refine ⟨Event.worker, { s with finished := s.finished + 1, counter := s.counter - 1 }, ?_⟩
      simp [Sched.step, hph, hlt, hd, hpos]
  | returned => exact absurd hph hr
  | panicked => exact absurd hph hp

/-- The classification `fate` agrees with the protocol on the panic of `wg.Add`. -/
theorem fate_addPanics_iff (n : Int) :
    fate n = Fate.addPanics ↔ (Sched.start n).phase = Phase.panicked := by
  unfold fate Sched.start
  by_cases h : wgAdd 0 n < 0
  · simp [h]
  · simp only [h, if_false]
    constructor
    · intro hf
      split at hf
      · split at hf <;> cases hf
      · split at hf <;> cases hf
    · intro hp
      cases hp

/-- With no goroutine launched and a positive counter, the protocol is stuck in
`wg.Wait()`: the classification `waitsForever`. -/
theorem fate_waitsForever_stuck {n : Int} (h : fate n = Fate.waitsForever) :
    Sched.run n (Sched.start n) [Event.main] = some ⟨wgAdd 0 n, 0, 0, Phase.waiting⟩ ∧
      ∀ e : Event, Sched.step n ⟨wgAdd 0 n, 0, 0, Phase.waiting⟩ e = none := by
  unfold fate at h
  by_cases h1 : wgAdd 0 n < 0
  · simp [h1] at h
  · simp only [h1, if_false] at h
    by_cases h2 : n ≤ 0
    · simp only [h2, if_true] at h
      by_cases h3 : wgAdd 0 n = 0
      · simp [h3] at h
      · have hlt : ¬ (0 : Int) < n := by omega
        refine ⟨?_, ?_⟩
        · simp [Sched.run, Sched.start, Sched.step, h1, hlt]
        · intro e
          cases e <;> simp [Sched.step, h3]
    · simp only [h2, if_false] at h
      split at h <;> cases h

/-- C15 (amended): for a count `0 ≤ n < 2^31` handed to `wg.Add` (`n` the clamped worker
count), in every interleaving of the goroutines of `Draw` the number of goroutines the loop
launches is the count registered with the wait group; `Draw` returns only when every one of
them has been launched and has completed its compositing invocation; no `wg.Done()` panics;
as long as `Draw` has not returned some goroutine can run (the wait does not block forever);
and every schedule that reaches a state `s` has used `2 * n + 2 - fuel s` steps, so after
`2 * n + 2` steps `Draw` has returned. -/
theorem barrier_join {Img S : Type} (sd : splitDrawer Img S) (numCPU : Int) (r : Rectangle)
    (es : List Event) (s : Sched) (hn : 0 ≤ workers numCPU sd.n (rows r))
    (h31 : workers numCPU sd.n (rows r) < 2 ^ 31)
    (hrun : Sched.run (workers numCPU sd.n (rows r))
      (Sched.start (workers numCPU sd.n (rows r))) es = some s) :
    ((launches (rows r) (workers numCPU sd.n (rows r))).length : Int)
        = (Sched.start (workers numCPU sd.n (rows r))).counter ∧
      (s.phase = Phase.returned →
        s.launched = (launches (rows r) (workers numCPU sd.n (rows r))).length ∧
        s.finished = (launches (rows r) (workers numCPU sd.n (rows r))).length) ∧
      s.phase ≠ Phase.panicked ∧
      (s.phase ≠ Phase.returned → ∃ e t, s.step (workers numCPU sd.n (rows r)) e = some t) ∧
      es.length + s.fuel (workers numCPU sd.n (rows r))
        = 2 * (launches (rows r) (workers numCPU sd.n (rows r))).length + 2 ∧
      (es.length = 2 * (launches (rows r) (workers numCPU sd.n (rows r))).length + 2 →
        s.phase = Phase.returned) := by
  obtain ⟨hinv, hfuel⟩ := Sched.run_inv es (Sched.start_inv hn h31) hrun
  rw [Sched.start_fuel hn h31] at hfuel
  rw [launches_length]
  have hinv2 := hinv
  obtain ⟨_, hp, hc, hfl, hln, hloop, hret⟩ := hinv2
  have hstart : (Sched.start (workers numCPU sd.n (rows r))).counter
      = workers numCPU sd.n (rows r) := by
    have : ¬ workers numCPU sd.n (rows r) < 0 := by omega
    simp [Sched.start, wgAdd_zero hn h31, this]
  refine ⟨by rw [hstart]; exact Int.toNat_of_nonneg hn, ?_, hp,
    fun hr => Sched.progress hinv hr, hfuel, ?_⟩
  · intro hr
    have h0 := hret hr
    have hl := hloop (by rw [hr]; decide)
    omega
  · intro hlen
    have hz : s.fuel (workers numCPU sd.n (rows r)) = 0 := by omega
    unfold Sched.fuel at hz
    cases hph : s.phase with
    | looping => simp [hph] at hz
    | waiting => simp [hph] at hz
    | returned => rfl
    | panicked => exact absurd hph hp

/-- Witness for C15: two workers on a rectangle of height 5; the schedule launches band 0,
lets it finish, launches band 1, leaves the loop, lets band 1 finish and wakes `Draw`. -/
theorem barrier_join_witness :
    0 ≤ workers 8 (New none 2 : splitDrawer Unit Unit).n (rows ⟨⟨0, 0⟩, ⟨3, 5⟩⟩) ∧
      workers 8 (New none 2 : splitDrawer Unit Unit).n (rows ⟨⟨0, 0⟩, ⟨3, 5⟩⟩) < 2 ^ 31 ∧
      Sched.run (workers 8 (New none 2 : splitDrawer Unit Unit).n (rows ⟨⟨0, 0⟩, ⟨3, 5⟩⟩))
        (Sched.start (workers 8 (New none 2 : splitDrawer Unit Unit).n
          (rows ⟨⟨0, 0⟩, ⟨3, 5⟩⟩)))
        [Event.main, Event.worker, Event.main, Event.main, Event.worker, Event.main]
        = some ⟨0, 2, 2, Phase.returned⟩ ∧
      ((⟨0, 2, 2, Phase.returned⟩ : Sched).phase = Phase.returned →
        (⟨0, 2, 2, Phase.returned⟩ : Sched).launched
          = (launches (rows ⟨⟨0, 0⟩, ⟨3, 5⟩⟩)
              (workers 8 (New none 2 : splitDrawer Unit Unit).n
                (rows ⟨⟨0, 0⟩, ⟨3, 5⟩⟩))).length ∧
        (⟨0, 2, 2, Phase.returned⟩ : Sched).finished
          = (launches (rows ⟨⟨0, 0⟩, ⟨3, 5⟩⟩)
              (workers 8 (New none 2 : splitDrawer Unit Unit).n
                (rows ⟨⟨0, 0⟩, ⟨3, 5⟩⟩))).length) :=
  ⟨by decide, by decide, by decide,
    (barrier_join (New none 2 : splitDrawer Unit Unit) 8 ⟨⟨0, 0⟩, ⟨3, 5⟩⟩
      [Event.main, Event.worker, Event.main, Event.main, Event.worker, Event.main]
      ⟨0, 2, 2, Phase.returned⟩ (by decide) (by decide) (by decide)).2.1⟩

/-- C15 as stated fails: with the configured worker count `-2^32 + 1` and a rectangle of
height 5 the clamp leaves `n = -4294967295`; `wg.Add(n)` registers the 32-bit counter 1 while
the loop launches no goroutine, so that `wg.Wait()` blocks forever: after the loop is left no
goroutine can run and `Draw` has not returned.  The same happens with one worker on the
rectangle `(0, 4294967295)-(1, 0)` of height `-2^32 + 1`. -/
theorem wait_blocks_forever :
    (workers 8 (New none (-4294967295) : splitDrawer Unit Unit).n (rows ⟨⟨0, 0⟩, ⟨3, 5⟩⟩)
        = -4294967295 ∧
      fate (-4294967295) = Fate.waitsForever ∧
      (Sched.start (-4294967295)).counter = 1 ∧
      (launches (rows ⟨⟨0, 0⟩, ⟨3, 5⟩⟩) (-4294967295)).length = 0 ∧
      Sched.run (-4294967295) (Sched.start (-4294967295)) [Event.main]
        = some ⟨1, 0, 0, Phase.waiting⟩ ∧
      ∀ e : Event, Sched.step (-4294967295) ⟨1, 0, 0, Phase.waiting⟩ e = none) ∧
    (workers 8 (New none 1 : splitDrawer Unit Unit).n (rows ⟨⟨0, 4294967295⟩, ⟨1, 0⟩⟩)
        = -4294967295 ∧
      (New none 1 : splitDrawer Unit Unit).bands 8 ⟨⟨0, 4294967295⟩, ⟨1, 0⟩⟩ = none) := by
  refine ⟨⟨by decide, by decide, by decide, by decide, by decide, ?_⟩, by decide, by decide⟩
  intro e
  cases e <;> decide

/-- C16 (amended): for every height `H = rows r ≥ 1` and resolved worker count `n ≥ 1`, with
`k = min(n, H)` and provided `k < 2^31` (the count fits the 32-bit counter of the wait group)
and `k * H < 2^63` (no product overflows), `Draw` returns and every band it dispatched has
either `floor(H/k)` or `ceil(H/k)` rows, so any two bands differ by at most one row; the
first band has exactly `floor(H/k)` rows and the last band exactly `ceil(H/k)` rows.  Here
`ceil(H/k) = ceilDiv H k` is the least `c` with `H ≤ c * k`. -/
theorem balanced_split {Img S : Type} (sd : splitDrawer Img S) (numCPU : Int) (r : Rectangle)
    (hn : 1 ≤ resolve numCPU sd.n) (hH : 1 ≤ rows r)
    (hcnt : min (resolve numCPU sd.n) (rows r) < 2 ^ 31)
    (hfit : min (resolve numCPU sd.n) (rows r) * rows r < 2 ^ 63) :
    (rows r ≤ ceilDiv (rows r) (min (resolve numCPU sd.n) (rows r))
        * min (resolve numCPU sd.n) (rows r) ∧
      (ceilDiv (rows r) (min (resolve numCPU sd.n) (rows r)) - 1)
        * min (resolve numCPU sd.n) (rows r) < rows r) ∧
    ∃ bs, sd.bands numCPU r = some bs ∧
      (∀ b ∈ bs, bandSize b = rows r / min (resolve numCPU sd.n) (rows r) ∨
        bandSize b = ceilDiv (rows r) (min (resolve numCPU sd.n) (rows r))) ∧
      (∀ b ∈ bs, ∀ c ∈ bs, bandSize b - bandSize c ≤ 1) ∧
      bs[0]?.map bandSize = some (rows r / min (resolve numCPU sd.n) (rows r)) ∧
      bs[bs.length - 1]?.map bandSize
        = some (ceilDiv (rows r) (min (resolve numCPU sd.n) (rows r))) := by
  have hw : workers numCPU sd.n (rows r) = min (resolve numCPU sd.n) (rows r) := workers_eq_min
  rw [← hw] at hfit hcnt ⊢
  have hk : 1 ≤ workers numCPU sd.n (rows r) := by omega
  obtain ⟨c1, c2⟩ := ceilDiv_bounds (H := rows r) hk
  obtain ⟨f1, f2⟩ := floor_le_ceilDiv (H := rows r) hk
  refine ⟨⟨c1, by nlinarith⟩, ?_⟩
  obtain ⟨bs, hbs, _, hsize, hfirst, hlast⟩ := bands_sizes sd numCPU r hn hH hcnt hfit
  refine ⟨bs, hbs, ?_, ?_, hfirst, hlast⟩
  · intro b hb
    have := hsize b hb
    omega
  · intro b hb c hc
    have h1 := hsize b hb
    have h2 := hsize c hc
    omega

/-- Witness for C16: height 8 drawn by 5 workers; every band has 1 or 2 rows. -/
theorem balanced_split_witness :
    (1 : Int) ≤ resolve 8 (New none 5 : splitDrawer Unit Unit).n ∧
      1 ≤ rows ⟨⟨0, 0⟩, ⟨3, 8⟩⟩ ∧
      min (resolve 8 (New none 5 : splitDrawer Unit Unit).n) (rows ⟨⟨0, 0⟩, ⟨3, 8⟩⟩)
        < 2 ^ 31 ∧
      min (resolve 8 (New none 5 : splitDrawer Unit Unit).n) (rows ⟨⟨0, 0⟩, ⟨3, 8⟩⟩)
        * rows ⟨⟨0, 0⟩, ⟨3, 8⟩⟩ < 2 ^ 63 ∧
      ∃ bs, (New none 5 : splitDrawer Unit Unit).bands 8 ⟨⟨0, 0⟩, ⟨3, 8⟩⟩ = some bs ∧
        (∀ b ∈ bs, bandSize b = rows ⟨⟨0, 0⟩, ⟨3, 8⟩⟩
            / min (resolve 8 (New none 5 : splitDrawer Unit Unit).n) (rows ⟨⟨0, 0⟩, ⟨3, 8⟩⟩) ∨
          bandSize b = ceilDiv (rows ⟨⟨0, 0⟩, ⟨3, 8⟩⟩)
            (min (resolve 8 (New none 5 : splitDrawer Unit Unit).n)
              (rows ⟨⟨0, 0⟩, ⟨3, 8⟩⟩))) := by
  refine ⟨by decide, by decide, by decide, by decide, ?_⟩
  obtain ⟨bs, h1, h2, _⟩ :=
    (balanced_split (New none 5 : splitDrawer Unit Unit) 8 ⟨⟨0, 0⟩, ⟨3, 8⟩⟩
      (by decide) (by decide) (by decide) (by decide)).2
  exact ⟨bs, h1, h2⟩

/-- C16 as stated fails: for height `2^62` and 3 workers the product `2 * rows` overflows and
band 1 has `-4611686018427387903` rows, neither `floor(H/3)` nor `ceil(H/3)`; and for height
`2^31` and `2^31` workers `wg.Add(2^31)` panics and no band is dispatched. -/
theorem unbalanced_on_overflow :
    ((1 : Int) ≤ resolve 8 (New none 3 : splitDrawer Unit Unit).n ∧
      1 ≤ rows ⟨⟨0, 0⟩, ⟨1, 2 ^ 62⟩⟩ ∧
      ¬ ∃ bs, (New none 3 : splitDrawer Unit Unit).bands 8 ⟨⟨0, 0⟩, ⟨1, 2 ^ 62⟩⟩ = some bs ∧
        ∀ b ∈ bs, bandSize b = rows ⟨⟨0, 0⟩, ⟨1, 2 ^ 62⟩⟩
            / min (resolve 8 (New none 3 : splitDrawer Unit Unit).n)
                (rows ⟨⟨0, 0⟩, ⟨1, 2 ^ 62⟩⟩) ∨
          bandSize b = ceilDiv (rows ⟨⟨0, 0⟩, ⟨1, 2 ^ 62⟩⟩)
            (min (resolve 8 (New none 3 : splitDrawer Unit Unit).n)
              (rows ⟨⟨0, 0⟩, ⟨1, 2 ^ 62⟩⟩))) ∧
    ((1 : Int) ≤ resolve 8 (New none (2 ^ 31) : splitDrawer Unit Unit).n ∧
      1 ≤ rows ⟨⟨0, 0⟩, ⟨5, 2 ^ 31⟩⟩ ∧
      min (resolve 8 (New none (2 ^ 31) : splitDrawer Unit Unit).n)
          (rows ⟨⟨0, 0⟩, ⟨5, 2 ^ 31⟩⟩) * rows ⟨⟨0, 0⟩, ⟨5, 2 ^ 31⟩⟩ < 2 ^ 63 ∧
      (New none (2 ^ 31) : splitDrawer Unit Unit).bands 8 ⟨⟨0, 0⟩, ⟨5, 2 ^ 31⟩⟩ = none ∧
      (New none (2 ^ 31) : splitDrawer Unit Unit).dispatched 8 ⟨⟨0, 0⟩, ⟨5, 2 ^ 31⟩⟩ = []) := by
  refine ⟨⟨by decide, by decide, ?_⟩, by decide⟩
  rintro ⟨bs, hbs, h⟩
  have e : (New none 3 : splitDrawer Unit Unit).bands 8 ⟨⟨0, 0⟩, ⟨1, 2 ^ 62⟩⟩
      = some [(0, 1537228672809129301), (1537228672809129301, -3074457345618258602),
          (-3074457345618258602, -1537228672809129301)] := by decide
  rw [e] at hbs
  cases hbs
  have h1 := h (1537228672809129301, -3074457345618258602) (by simp)
  revert h1
  decide

/-- C17: for every configured worker count `n ≥ 0` (`0` resolved to `c ≥ 1`) and every
rectangle, no division of `Draw` is by zero (the loop with checked divisions computes the
bands of `Draw`), whenever a band boundary `i*rows/n` is evaluated (`0 ≤ i < n`) or a band is
dispatched the divisor `n` is at least 1, and when `rows = 0` the clamp sets `n` to 0 and no
band is dispatched. -/
theorem division_by_zero_unreachable {Img S : Type} (sd : splitDrawer Img S) (numCPU : Int)
    (r : Rectangle) (hc : 1 ≤ numCPU) (hn : 0 ≤ sd.n) :
    sd.bandsChecked numCPU r = sd.bands numCPU r ∧
      (∀ i : Nat, (i : Int) < workers numCPU sd.n (rows r) →
        1 ≤ workers numCPU sd.n (rows r) ∧
        launchChecked (rows r) (workers numCPU sd.n (rows r)) i
          = some (quo (mul (i : Int) (rows r)) (workers numCPU sd.n (rows r)),
              quo (mul (add (i : Int) 1) (rows r)) (workers numCPU sd.n (rows r)))) ∧
      (sd.dispatched numCPU r ≠ [] → 1 ≤ workers numCPU sd.n (rows r)) ∧
      (rows r = 0 → workers numCPU sd.n (rows r) = 0 ∧ sd.bands numCPU r = some []) := by
  have hres := resolve_pos hc hn
  have hw : workers numCPU sd.n (rows r) = min (resolve numCPU sd.n) (rows r) := workers_eq_min
  refine ⟨bandsChecked_eq sd numCPU r, ?_, ?_, ?_⟩
  · intro i hi
    have hk : workers numCPU sd.n (rows r) ≠ 0 := by omega
    exact ⟨by omega, by simp [launchChecked, quoChecked, hk, quo]⟩
  · intro hne
    by_contra hlt
    exact hne (dispatched_nil sd numCPU r (by omega))
  · intro h0
    have hz : workers numCPU sd.n (rows r) = 0 := by omega
    refine ⟨hz, ?_⟩
    have hf : fate 0 = Fate.returns := fate_returns (le_refl 0) (by norm_num)
    simp [splitDrawer.bands, hz, launches, hf]

/-- Witness for C17: the package default `D` with 8 CPUs on a rectangle of height 0. -/
theorem division_by_zero_unreachable_witness :
    (1 : Int) ≤ 8 ∧ 0 ≤ (D : splitDrawer Unit Unit).n ∧
      rows ⟨⟨0, 0⟩, ⟨3, 0⟩⟩ = 0 ∧
      workers 8 (D : splitDrawer Unit Unit).n (rows ⟨⟨0, 0⟩, ⟨3, 0⟩⟩) = 0 ∧
      (D : splitDrawer Unit Unit).bands 8 ⟨⟨0, 0⟩, ⟨3, 0⟩⟩ = some [] ∧
      (D : splitDrawer Unit Unit).bandsChecked 8 ⟨⟨0, 0⟩, ⟨3, 0⟩⟩
        = (D : splitDrawer Unit Unit).bands 8 ⟨⟨0, 0⟩, ⟨3, 0⟩⟩ :=
  ⟨by decide, by decide, by decide,
    ((division_by_zero_unreachable (D : splitDrawer Unit Unit) 8 ⟨⟨0, 0⟩, ⟨3, 0⟩⟩
      (by decide) (by decide)).2.2.2 (by decide)).1,
    ((division_by_zero_unreachable (D : splitDrawer Unit Unit) 8 ⟨⟨0, 0⟩, ⟨3, 0⟩⟩
      (by decide) (by decide)).2.2.2 (by decide)).2,
    (division_by_zero_unreachable (D : splitDrawer Unit Unit) 8 ⟨⟨0, 0⟩, ⟨3, 0⟩⟩
      (by decide) (by decide)).1⟩

/-! ## Truncated division of wrapped products -/

theorem tdiv_bounds_nonneg {x k : Int} (hx : 0 ≤ x) (hk : 1 ≤ k) :
    0 ≤ Int.tdiv x k ∧ Int.tdiv x k * k ≤ x ∧ x < Int.tdiv x k * k + k := by
  rw [Int.tdiv_eq_ediv hx (by omega)]
  have h1 := Int.lt_ediv_add_one_mul_self x (by omega : 0 < k)
  have h2 : (x / k + 1) * k = x / k * k + k := by ring
  exact ⟨Int.ediv_nonneg hx (by omega), Int.ediv_mul_le x (by omega), by linarith⟩

theorem tdiv_bounds_nonpos {x k : Int} (hx : x ≤ 0) (hk : 1 ≤ k) :
    Int.tdiv x k ≤ 0 ∧ x ≤ Int.tdiv x k * k ∧ Int.tdiv x k * k - k < x := by
  obtain ⟨h1, h2, h3⟩ := tdiv_bounds_nonneg (x := -x) (by omega) hk
  have e : Int.tdiv x k = -Int.tdiv (-x) k := by rw [Int.neg_tdiv, Int.neg_neg]
  have e2 : -Int.tdiv (-x) k * k = -(Int.tdiv (-x) k * k) := by ring
  rw [e, e2]
  exact ⟨by omega, by linarith, by linarith⟩

/-- Truncated quotients of two numbers at least `k` apart differ, unless both numbers lie
strictly between `-k` and `k`. -/
theorem tdiv_lt_of_gap {x z k : Int} (hk : 1 ≤ k) (hgap : x + k ≤ z)
    (h : 0 ≤ x ∨ z ≤ 0 ∨ x ≤ -k ∨ k ≤ z) : Int.tdiv x k < Int.tdiv z k := by
  have hk0 : (0 : Int) ≤ k := by omega
  by_cases hx : 0 ≤ x
  · obtain ⟨_, a2, _⟩ := tdiv_bounds_nonneg hx hk
    obtain ⟨_, _, b3⟩ := tdiv_bounds_nonneg (x := z) (by omega) hk
    exact lt_of_mul_lt_mul_right (by linarith) hk0
  · by_cases hz : z ≤ 0
    · obtain ⟨_, _, a3⟩ := tdiv_bounds_nonpos (x := x) (by omega) hk
      obtain ⟨_, b2, _⟩ := tdiv_bounds_nonpos hz hk
      exact lt_of_mul_lt_mul_right (by linarith) hk0
    · obtain ⟨a1, _, a3⟩ := tdiv_bounds_nonpos (x := x) (by omega) hk
      obtain ⟨b1, _, b3⟩ := tdiv_bounds_nonneg (x := z) (by omega) hk
      rcases h with h | h | h | h
      · omega
      · omega
      · have hq : Int.tdiv x k * k < 0 := by linarith
        have : Int.tdiv x k < 0 := by
          by_contra hge
          have := Int.mul_nonneg (Int.not_lt.mp hge) hk0
          omega
        omega
      · have hq : 0 < Int.tdiv z k * k := by linarith
        have : 0 < Int.tdiv z k := by
          by_contra hle
          have hz0 : Int.tdiv z k = 0 := by omega
          rw [hz0] at hq
          simp at hq
        omega

theorem tdiv_isInt {x k : Int} (hx : IsInt x) (hk : 1 ≤ k) : IsInt (Int.tdiv x k) := by
  unfold IsInt at hx ⊢
  have hk0 : (0 : Int) ≤ k := by omega
  by_cases h : 0 ≤ x
  · obtain ⟨a1, a2, _⟩ := tdiv_bounds_nonneg h hk
    have : Int.tdiv x k ≤ Int.tdiv x k * k := by nlinarith
    omega
  · obtain ⟨a1, a2, _⟩ := tdiv_bounds_nonpos (x := x) (by omega) hk
    have : Int.tdiv x k * k ≤ Int.tdiv x k := by nlinarith
    omega

/-- For a count below `2^31` the two row bounds of a band differ, even when the products
overflow, and both are 64-bit values. -/
theorem launch_bounds_ne {H k : Int} (hk : 1 ≤ k) (hkH : k ≤ H) (hk31 : k < 2 ^ 31)
    (hH : H < 2 ^ 63) (i : Nat) (hi : (i : Int) < k) :
    quo (mul (i : Int) H) k ≠ quo (mul (add (i : Int) 1) H) k ∧
      IsInt (quo (mul (i : Int) H) k) ∧ IsInt (quo (mul (add (i : Int) 1) H) k) := by
  have hi0 : (0 : Int) ≤ (i : Int) := Int.ofNat_nonneg i
  have e1 : add (i : Int) 1 = (i : Int) + 1 := wrap_eq ⟨by omega, by omega⟩
  have e2 : ((i : Int) + 1) * H = (i : Int) * H + H := by ring
  have hP0 : 0 ≤ (i : Int) * H := Int.mul_nonneg hi0 (by omega)
  have hP1 : (i : Int) * H ≤ 2147483647 * H :=
    Int.mul_le_mul_of_nonneg_right (by omega) (by omega)
  rw [e1]
  unfold quo mul
  rw [e2]
  generalize (i : Int) * H = P at hP0 hP1
  have hx := wrap_isInt P
  have hz := wrap_isInt (P + H)
  refine ⟨?_, tdiv_isInt hx hk, tdiv_isInt hz hk⟩
  unfold IsInt at hx hz
  by_cases hA : wrap P + H < 2 ^ 63
  · have hzx : wrap (P + H) = wrap P + H := by unfold wrap at hA ⊢; omega
    have hcond : 0 ≤ wrap P ∨ wrap (P + H) ≤ 0 ∨ wrap P ≤ -k ∨ k ≤ wrap (P + H) := by
      rw [hzx]
      unfold wrap at hA ⊢
      omega
    exact Int.ne_of_lt (tdiv_lt_of_gap hk (by omega) hcond)
  · have hzx : wrap (P + H) = wrap P + H - 2 ^ 64 := by unfold wrap at hA ⊢; omega
    have hcond : 0 ≤ wrap (P + H) ∨ wrap P ≤ 0 ∨ wrap (P + H) ≤ -k ∨ k ≤ wrap P := by
      rw [hzx]
      omega
    exact (Int.ne_of_lt (tdiv_lt_of_gap hk (by omega) hcond)).symm

/-- Adding distinct 64-bit values to the same number gives distinct wrapped sums. -/
theorem add_ne_of_ne (m : Int) {a b : Int} (hne : a ≠ b) (ha : IsInt a) (hb : IsInt b) :
    add m a ≠ add m b := by
  unfold IsInt at ha hb
  unfold add wrap
  omega

/-- The rectangle `image.Rect` builds from swapped x-coordinates and distinct y-coordinates
spans the swapped x-range and is not empty. -/
theorem Rect_swapped (x0 y0 x1 y1 : Int) (hx : x1 < x0) (hy : y0 ≠ y1) :
    (Rect x0 y0 x1 y1).Min.X = x1 ∧ (Rect x0 y0 x1 y1).Max.X = x0 ∧
      ¬ (Rect x0 y0 x1 y1).Empty := by
  have hxs : x0 > x1 := hx
  unfold Rectangle.Empty Rect
  by_cases h : y0 > y1
  · simp only [hxs, h, if_true]
    refine ⟨trivial, trivial, ?_⟩
    omega
  · simp only [hxs, h, if_true, if_false]
    refine ⟨trivial, trivial, ?_⟩
    omega

/-- C18 (amended): for a destination rectangle `r` with `Min.X > Max.X` and height
`H = rows r ≥ 1`, and a resolved worker count `n ≥ 1` with `min(n, H) < 2^31` (the count fits
the 32-bit counter of the wait group), `r` itself is empty but `Draw` invokes the compositing
rule at least once, and every band rectangle, built with `image.Rect`, has its x-coordinates
swapped: it spans `x` in `[Max.X, Min.X)` and is not empty. -/
theorem negative_width_swapped {Img S : Type} (sd : splitDrawer Img S) (numCPU : Int)
    (r : Rectangle) (sp : Point) (hx : r.Max.X < r.Min.X) (hH : 1 ≤ rows r)
    (hn : 1 ≤ resolve numCPU sd.n)
    (hcnt : min (resolve numCPU sd.n) (rows r) < 2 ^ 31) :
    r.Empty ∧ ∃ cs, sd.calls numCPU r sp = some cs ∧ cs ≠ [] ∧
      ∀ c ∈ cs, c.1.Min.X = r.Max.X ∧ c.1.Max.X = r.Min.X ∧ ¬ c.1.Empty := by
  have hw : workers numCPU sd.n (rows r) = min (resolve numCPU sd.n) (rows r) := workers_eq_min
  have hk : 1 ≤ workers numCPU sd.n (rows r) := by omega
  have hcnt2 : workers numCPU sd.n (rows r) < 2 ^ 31 := by omega
  have hbs := bands_eq sd numCPU r hn (by omega) hcnt2
  have hrow : IsInt (rows r) := wrap_isInt _
  refine ⟨Or.inl (by omega),
    (launches (rows r) (workers numCPU sd.n (rows r))).map (bandCall r sp),
    by simp [splitDrawer.calls, hbs], ?_, ?_⟩
  · intro hnil
    have hl := congrArg List.length hnil
    rw [List.length_map, launches_length] at hl
    simp only [List.length_nil] at hl
    omega
  · intro c hc
    rw [List.mem_map] at hc
    obtain ⟨b, hb, rfl⟩ := hc
    unfold launches at hb
    rw [List.mem_map] at hb
    obtain ⟨i, hi, rfl⟩ := hb
    rw [List.mem_range] at hi
    obtain ⟨hne, h0, h1⟩ := launch_bounds_ne hk (by omega) hcnt2 hrow.2 i (by omega)
    have hrect := Rect_swapped r.Min.X
      (add r.Min.Y (quo (mul (i : Int) (rows r)) (workers numCPU sd.n (rows r)))) r.Max.X
      (add r.Min.Y (quo (mul (add (i : Int) 1) (rows r)) (workers numCPU sd.n (rows r))))
      hx (add_ne_of_ne r.Min.Y hne h0 h1)
    simp only [bandCall]
    exact hrect

/-- Witness for C18: the rectangle with `Min = (5, 0)`, `Max = (2, 6)` drawn by 2 workers. -/
theorem negative_width_swapped_witness :
    (⟨⟨5, 0⟩, ⟨2, 6⟩⟩ : Rectangle).Max.X < (⟨⟨5, 0⟩, ⟨2, 6⟩⟩ : Rectangle).Min.X ∧
      1 ≤ rows ⟨⟨5, 0⟩, ⟨2, 6⟩⟩ ∧
      1 ≤ resolve 8 (New none 2 : splitDrawer Unit Unit).n ∧
      min (resolve 8 (New none 2 : splitDrawer Unit Unit).n) (rows ⟨⟨5, 0⟩, ⟨2, 6⟩⟩)
        < 2 ^ 31 ∧
      (⟨⟨5, 0⟩, ⟨2, 6⟩⟩ : Rectangle).Empty ∧
      ∃ cs, (New none 2 : splitDrawer Unit Unit).calls 8 ⟨⟨5, 0⟩, ⟨2, 6⟩⟩ ⟨0, 0⟩ = some cs ∧
        cs ≠ [] ∧
        ∀ c ∈ cs, c.1.Min.X = (⟨⟨5, 0⟩, ⟨2, 6⟩⟩ : Rectangle).Max.X ∧
          c.1.Max.X = (⟨⟨5, 0⟩, ⟨2, 6⟩⟩ : Rectangle).Min.X ∧ ¬ c.1.Empty :=
  ⟨by decide, by decide, by decide, by decide,
    negative_width_swapped (New none 2 : splitDrawer Unit Unit) 8 ⟨⟨5, 0⟩, ⟨2, 6⟩⟩ ⟨0, 0⟩
      (by decide) (by decide) (by decide) (by decide)⟩

/-- C18 as stated fails: for the rectangle with `Min = (1, 0)`, `Max = (0, 2^31)`, of height
`2^31`, and `2^31` workers, `wg.Add(2^31)` panics on the 32-bit counter `-2^31` before the
loop, and the compositing rule is not invoked at all.  For the rectangle with
`Min = (1, -2^62)`, `Max = (0, 2^62)`, of height `2^63`, `rows` wraps to `-2^63`, the
counter stays 0, and `Draw` returns without invoking the rule. -/
theorem negative_width_no_invocation :
    ((⟨⟨1, 0⟩, ⟨0, 2 ^ 31⟩⟩ : Rectangle).Valid ∧
      (⟨⟨1, 0⟩, ⟨0, 2 ^ 31⟩⟩ : Rectangle).Max.X < (⟨⟨1, 0⟩, ⟨0, 2 ^ 31⟩⟩ : Rectangle).Min.X ∧
      1 ≤ (⟨⟨1, 0⟩, ⟨0, 2 ^ 31⟩⟩ : Rectangle).height ∧
      1 ≤ rows ⟨⟨1, 0⟩, ⟨0, 2 ^ 31⟩⟩ ∧
      1 ≤ resolve 8 (New none (2 ^ 31) : splitDrawer Unit Unit).n ∧
      fate (workers 8 (New none (2 ^ 31) : splitDrawer Unit Unit).n
        (rows ⟨⟨1, 0⟩, ⟨0, 2 ^ 31⟩⟩)) = Fate.addPanics ∧
      (New none (2 ^ 31) : splitDrawer Unit Unit).calls 8 ⟨⟨1, 0⟩, ⟨0, 2 ^ 31⟩⟩ ⟨0, 0⟩
        = none ∧
      (New none (2 ^ 31) : splitDrawer Unit Unit).invocations 8 ⟨⟨1, 0⟩, ⟨0, 2 ^ 31⟩⟩ ⟨0, 0⟩
        = []) ∧
    ((⟨⟨1, -2 ^ 62⟩, ⟨0, 2 ^ 62⟩⟩ : Rectangle).Valid ∧
      (⟨⟨1, -2 ^ 62⟩, ⟨0, 2 ^ 62⟩⟩ : Rectangle).Max.X
        < (⟨⟨1, -2 ^ 62⟩, ⟨0, 2 ^ 62⟩⟩ : Rectangle).Min.X ∧
      1 ≤ (⟨⟨1, -2 ^ 62⟩, ⟨0, 2 ^ 62⟩⟩ : Rectangle).height ∧
      (New none 4 : splitDrawer Unit Unit).calls 8 ⟨⟨1, -2 ^ 62⟩, ⟨0, 2 ^ 62⟩⟩ ⟨0, 0⟩
        = some [] ∧
      (New none 4 : splitDrawer Unit Unit).invocations 8 ⟨⟨1, -2 ^ 62⟩, ⟨0, 2 ^ 62⟩⟩ ⟨0, 0⟩
        = []) := by
  decide

/-- C19: with the 64-bit `int`, for every height `0 ≤ H < 2^31` (`H = rows r`) and resolved
worker count `n ≥ 1`, every product `i * rows` and `(i + 1) * rows` computed by `Draw`
(`0 ≤ i < min(n, H)`) is non-negative and at most `rows^2 < 2^62`, so the wrapped products
equal the exact ones and the bands of `Draw` are the exact floor boundaries. -/
theorem products_do_not_overflow {Img S : Type} (sd : splitDrawer Img S) (numCPU : Int)
    (r : Rectangle) (hn : 1 ≤ resolve numCPU sd.n) (h0 : 0 ≤ rows r) (h31 : rows r < 2 ^ 31) :
    rows r * rows r < 2 ^ 62 ∧
      (∀ i : Nat, (i : Int) < workers numCPU sd.n (rows r) →
        0 ≤ (i : Int) * rows r ∧ (i : Int) * rows r ≤ rows r * rows r ∧
        ((i : Int) + 1) * rows r ≤ rows r * rows r ∧
        mul (i : Int) (rows r) = (i : Int) * rows r ∧
        mul (add (i : Int) 1) (rows r) = ((i : Int) + 1) * rows r) ∧
      sd.bands numCPU r = some ((List.range (workers numCPU sd.n (rows r)).toNat).map
        fun (i : Nat) => ((i : Int) * rows r / workers numCPU sd.n (rows r),
          ((i : Int) + 1) * rows r / workers numCPU sd.n (rows r))) := by
  have hw : workers numCPU sd.n (rows r) = min (resolve numCPU sd.n) (rows r) := workers_eq_min
  have hsq : rows r * rows r < 2 ^ 62 := by nlinarith
  have hkH : workers numCPU sd.n (rows r) ≤ rows r := by omega
  refine ⟨hsq, ?_, ?_⟩
  · intro i hi
    have hi0 : (0 : Int) ≤ (i : Int) := Int.ofNat_nonneg i
    have h1 : (i : Int) * rows r ≤ rows r * rows r :=
      Int.mul_le_mul_of_nonneg_right (by omega) h0
    have h2 : ((i : Int) + 1) * rows r ≤ rows r * rows r :=
      Int.mul_le_mul_of_nonneg_right (by omega) h0
    have h3 : 0 ≤ (i : Int) * rows r := Int.mul_nonneg hi0 h0
    have h4 : 0 ≤ ((i : Int) + 1) * rows r := Int.mul_nonneg (by omega) h0
    have e1 : add (i : Int) 1 = (i : Int) + 1 := wrap_eq ⟨by omega, by omega⟩
    have e2 : mul ((i : Int) + 1) (rows r) = ((i : Int) + 1) * rows r :=
      wrap_eq ⟨by omega, by omega⟩
    exact ⟨h3, h1, h2, wrap_eq ⟨by omega, by omega⟩, by rw [e1, e2]⟩
  · have hfit : workers numCPU sd.n (rows r) * rows r < 2 ^ 63 := by
      have : workers numCPU sd.n (rows r) * rows r ≤ rows r * rows r :=
        Int.mul_le_mul_of_nonneg_right hkH h0
      omega
    rw [bands_eq_floorCut sd numCPU r hn h0 (by omega) hfit]
    simp only [floorCut, Nat.cast_add, Nat.cast_one]

/-- Witness for C19: height 1000 drawn by 7 workers. -/
theorem products_do_not_overflow_witness :
    (1 : Int) ≤ resolve 8 (New none 7 : splitDrawer Unit Unit).n ∧
      0 ≤ rows ⟨⟨0, 0⟩, ⟨3, 1000⟩⟩ ∧ rows ⟨⟨0, 0⟩, ⟨3, 1000⟩⟩ < 2 ^ 31 ∧
      rows ⟨⟨0, 0⟩, ⟨3, 1000⟩⟩ * rows ⟨⟨0, 0⟩, ⟨3, 1000⟩⟩ < 2 ^ 62 ∧
      (New none 7 : splitDrawer Unit Unit).bands 8 ⟨⟨0, 0⟩, ⟨3, 1000⟩⟩
        = some ((List.range (workers 8 (New none 7 : splitDrawer Unit Unit).n
            (rows ⟨⟨0, 0⟩, ⟨3, 1000⟩⟩)).toNat).map
          fun (i : Nat) => ((i : Int) * rows ⟨⟨0, 0⟩, ⟨3, 1000⟩⟩
              / workers 8 (New none 7 : splitDrawer Unit Unit).n (rows ⟨⟨0, 0⟩, ⟨3, 1000⟩⟩),
            ((i : Int) + 1) * rows ⟨⟨0, 0⟩, ⟨3, 1000⟩⟩
              / workers 8 (New none 7 : splitDrawer Unit Unit).n
                  (rows ⟨⟨0, 0⟩, ⟨3, 1000⟩⟩))) :=
  ⟨by decide, by decide, by decide,
    (products_do_not_overflow (New none 7 : splitDrawer Unit Unit) 8 ⟨⟨0, 0⟩, ⟨3, 1000⟩⟩
      (by decide) (by decide) (by decide)).1,
    (products_do_not_overflow (New none 7 : splitDrawer Unit Unit) 8 ⟨⟨0, 0⟩, ⟨3, 1000⟩⟩
      (by decide) (by decide) (by decide)).2.2⟩

end SplitDrawer
